import Mathlib

set_option maxRecDepth 8000

/-!
Verification development for the ConfigPydle IRC client layer.

The repository holds two near-duplicate variants of the same design:
the canonical `src/ConfigPydle.py` (class `ConfigPydleClient`) and the
legacy `src/configpydle.py` (class `Client`).  Both are shallowly
embedded below: pure fragments become Lean functions, the stateful
handlers become functions from an explicit environment (time-indexed
observations of `connected`, the current nickname, channel membership)
to a list of emitted protocol actions, Python exceptions become
`Except`, and Python's `while` loops over external conditions take an
explicit fuel/budget argument exactly where the source has a bounded
budget, or a fuel horizon where the source loop is unbounded.
Ticks count the `asyncio.sleep` calls of the loop being modelled.
-/

/-! Section 1: configuration value coercion and validation
    (ConfigPydleClient.__init__, src/ConfigPydle.py lines 89-153;
    the legacy Client.__init__ lines 88-148 is the same code). -/

/-- Python values that the per-key coercion loop can produce: the raw
string, an `int`, a `bool`, or `None`. -/
inductive CVal where
  | str (s : String)
  | int (n : Int)
  | bool (b : Bool)
  | none
deriving DecidableEq

def digitChars : List Char := ['0', '1', '2', '3', '4', '5', '6', '7', '8', '9']

def natDigitChar (d : Nat) : Char :=
  if d = 1 then '1' else if d = 2 then '2' else if d = 3 then '3'
  else if d = 4 then '4' else if d = 5 then '5' else if d = 6 then '6'
  else if d = 7 then '7' else if d = 8 then '8' else if d = 9 then '9'
  else '0'

/-- Decimal digits of `n`, most significant first, with explicit fuel so
that the definition reduces in the kernel. -/
def natDigits : Nat → Nat → List Char
  | 0, _ => []
  | fuel + 1, n =>
    if n < 10 then [natDigitChar n]
    else natDigits fuel (n / 10) ++ [natDigitChar (n % 10)]

def natStr (n : Nat) : List Char := natDigits (n + 1) n

/-- Characters of Python `str(n)` for an integer `n`. -/
def intChars (n : Int) : List Char :=
  if n < 0 then '-' :: natStr n.natAbs else natStr n.toNat

/-- Python `str(x)` for the values the coercion loop handles. -/
def strOfCVal : CVal → String
  | CVal.str s => s
  | CVal.int n => ⟨intChars n⟩
  | CVal.bool b => if b then "True" else "False"
  | CVal.none => "None"

/-- Python `str.lower()` (ASCII range, which covers the configuration
vocabulary the source compares against). -/
def pyLower (s : String) : String := ⟨s.data.map Char.toLower⟩

def digitVal (c : Char) : Option Nat :=
  if '0' ≤ c ∧ c ≤ '9' then some (c.toNat - 48) else Option.none

def digitsCore : List Char → Nat → Option Nat
  | [], acc => some acc
  | c :: cs, acc =>
    match digitVal c with
    | some d => digitsCore cs (10 * acc + d)
    | Option.none => Option.none

/-- Python `int(s)` on a configuration value: optional sign followed by a
nonempty run of decimal digits (configparser values carry no surrounding
whitespace). `Option.none` models the `ValueError` the source catches. -/
def pyParseInt (s : String) : Option Int :=
  match s.data with
  | [] => Option.none
  | '-' :: rest =>
    if rest = [] then Option.none else (digitsCore rest 0).map (fun n => -(n : Int))
  | '+' :: rest =>
    if rest = [] then Option.none else (digitsCore rest 0).map (fun n => (n : Int))
  | cs => (digitsCore cs 0).map (fun n => (n : Int))

def booleanFalseValues : List String := ["false", "no"]

def booleanTrueValues : List String := ["true", "yes"]

/-- One pass of the per-key coercion in `__init__`
(src/ConfigPydle.py lines 116-132): try `int()` (the raw value is a
string, never a bool, at this point), then map boolean words, then
`'none'`, each test applied to `str(current).lower()`. -/
def coerceValue (v : String) : CVal :=
  let x : CVal :=
    match pyParseInt v with
    | some n => CVal.int n
    | Option.none => CVal.str v
  let x := if pyLower (strOfCVal x) ∈ booleanFalseValues then CVal.bool false else x
  let x := if pyLower (strOfCVal x) ∈ booleanTrueValues then CVal.bool true else x
  if pyLower (strOfCVal x) = "none" then CVal.none else x

/-- Python `isinstance(x, int)`: crucially, `bool` is a subclass of
`int`, so booleans pass this check. -/
def pyIsInt : CVal → Bool
  | CVal.int _ => true
  | CVal.bool _ => true
  | _ => false

/-- Integer value of a Python int-or-bool (`True == 1`, `False == 0`). -/
def cvalInt : CVal → Int
  | CVal.int n => n
  | CVal.bool b => if b then 1 else 0
  | _ => 0

inductive PyErr where
  | keyError (msg : String)
  | valueError (msg : String)
deriving DecidableEq

def lookupVal : List (String × CVal) → String → Option CVal
  | [], _ => Option.none
  | (k2, v) :: rest, k => if k2 = k then some v else lookupVal rest k

/-- Coercion applied to every key of the parsed config section
(the `for key in _parser['config']` loop), uniformly, with no regard to
the key's intended type. -/
def coerceAll (raw : List (String × String)) : List (String × CVal) :=
  raw.map (fun kv => (kv.1, coerceValue kv.2))

/-- Required-key check (src/ConfigPydle.py lines 134-136): the first
missing key raises `KeyError` with a message naming it. -/
def requiredCheck : List String → List (String × CVal) → Except PyErr Unit
  | [], _ => Except.ok ()
  | k :: ks, m =>
    match lookupVal m k with
    | some _ => requiredCheck ks m
    | Option.none => Except.error (PyErr.keyError ("Required key " ++ k ++ " in config file is missing"))

def varIntMax : List (String × Int) := [("connect_timeout", 30), ("port", 65535)]

/-- Integer range validation (src/ConfigPydle.py lines 138-145):
`isinstance(_, int)` (booleans included), then the 1 ≤ _ ≤ max bounds. -/
def intRangeCheck : List (String × Int) → List (String × CVal) → Except PyErr Unit
  | [], _ => Except.ok ()
  | (v, mx) :: rest, m =>
    match lookupVal m v with
    | Option.none => Except.error (PyErr.keyError v)
    | some x =>
      if pyIsInt x = false then
        Except.error (PyErr.valueError ("The " ++ v ++ " variable must be an integer"))
      else if cvalInt x < 1 then
        Except.error (PyErr.valueError ("The " ++ v ++ " variable must be greater than or equal to 1"))
      else if mx < cvalInt x then
        Except.error (PyErr.valueError ("The " ++ v ++ " variable must be less than or equal to " ++ ⟨intChars mx⟩))
      else intRangeCheck rest m

/-- The constructor's configuration pipeline after parsing: coerce every
value, check required keys, then validate the integer ranges.  The
constructor performs no network activity; errors surface as the
`Except.error` result of this pure pipeline. -/
def buildConfig (raw : List (String × String)) (required : List String) :
    Except PyErr (List (String × CVal)) :=
  let m := coerceAll raw
  match requiredCheck required m with
  | Except.error e => Except.error e
  | Except.ok _ =>
    match intRangeCheck varIntMax m with
    | Except.error e => Except.error e
    | Except.ok _ => Except.ok m

/-! Mutable default arguments of `__init__`
(`default_config_keys={}`, `required_config_keys=[]`,
src/ConfigPydle.py lines 89 and 101-107).  In Python the two default
objects are created once, when `def` executes; every call that omits
the argument receives the same object, and the constructor mutates it
in place.  `SharedDefaults` models the pair of shared objects and
`ctorMutateShared` the mutation one construction performs on them. -/

def builtinDefaultConfigKeys : List (String × String) :=
  [("connect_timeout", "10"), ("port", "6697"), ("sasl_mechanism", "EXTERNAL"),
   ("tls", "True"), ("tls_verify", "True")]

def builtinRequiredConfigKeys : List String :=
  ["hostname", "nickname", "realname", "username"]

def hasKey (d : List (String × String)) (k : String) : Bool :=
  d.any (fun kv => kv.1 = k)

/-- The `for key in _default_config_keys` loop: insert each builtin
default the caller's dict lacks (dict insertion appends in order). -/
def mutateDefaultConfigKeys (d : List (String × String)) : List (String × String) :=
  builtinDefaultConfigKeys.foldl (fun acc kv => if hasKey acc kv.1 then acc else acc ++ [kv]) d

/-- The `for key in _required_config_keys` loop: append each missing
builtin required key to the caller's list, in place. -/
def mutateRequiredConfigKeys (r : List String) : List String :=
  builtinRequiredConfigKeys.foldl (fun acc k => if k ∈ acc then acc else acc ++ [k]) r

structure SharedDefaults where
  default_config_keys : List (String × String)
  required_config_keys : List String
deriving DecidableEq

/-- The state of the two shared default objects right after `def
__init__` is evaluated: an empty dict and an empty list. -/
def initialSharedDefaults : SharedDefaults := ⟨[], []⟩

/-- The mutation one constructor call (that omitted both optional
arguments) performs on the shared default objects. -/
def ctorMutateShared (s : SharedDefaults) : SharedDefaults :=
  ⟨mutateDefaultConfigKeys s.default_config_keys,
   mutateRequiredConfigKeys s.required_config_keys⟩

/-! Section 2: the text wrapper
    (`textwrap.TextWrapper(width=64, expand_tabs=False, tabsize=1,
    replace_whitespace=True, drop_whitespace=True)`,
    src/ConfigPydle.py lines 95-96, used at line 271).

    The model follows CPython's `textwrap` for this configuration:
    `_munge_whitespace` turns each of tab, newline, vertical tab,
    form feed and carriage return into a space (`expand_tabs` is off);
    `_split` cuts the munged text into alternating chunks of spaces
    and non-spaces; `_wrap_chunks` greedily fills 64-character lines,
    dropping a leading whitespace chunk on every line but the first and
    a trailing whitespace chunk on every line, and — because the
    wrapper is constructed with the default `break_long_words=True` —
    breaks a chunk longer than 64 characters at the remaining width.
    The hyphen-aware chunking of `break_on_hyphens` is not modelled, so
    statements about the wrapper are scoped to texts without `-` and
    with characters drawn from ASCII (space, the five munged
    whitespace characters, and printable characters). -/

def mungeChar (c : Char) : Char :=
  if c ∈ ['\t', '\n', '\x0b', '\x0c', '\r'] then ' ' else c

def munge (s : List Char) : List Char := s.map mungeChar

def isSpc (c : Char) : Bool := c = ' '

/-- Split into maximal runs of spaces and of non-spaces (the effect of
CPython's chunk regex on hyphen-free munged text). -/
def splitChunks : List Char → List (List Char)
  | [] => []
  | c :: cs =>
    match splitChunks cs with
    | [] => [[c]]
    | [] :: rest => [c] :: [] :: rest
    | (d :: ds) :: rest =>
      if isSpc c = isSpc d then (c :: d :: ds) :: rest else [c] :: (d :: ds) :: rest

def sumLens (l : List (List Char)) : Nat := (l.map List.length).sum

/-- The inner loop of `_wrap_chunks`: move chunks onto the current line
while they fit in the 64-character width. Returns the line and the
chunks left over. -/
def fillLine : List (List Char) → Nat → List (List Char) × List (List Char)
  | [], _ => ([], [])
  | c :: cs, curLen =>
    if curLen + c.length ≤ 64 then
      let r := fillLine cs (curLen + c.length)
      (c :: r.1, r.2)
    else ([], c :: cs)

def isWSChunk (c : List Char) : Bool := c.all (fun ch => ch = ' ')

/-- Drop a trailing whitespace chunk from the line, as `_wrap_chunks`
does with `drop_whitespace=True` (one chunk at most). -/
def dropLastWS : List (List Char) → List (List Char)
  | [] => []
  | [c] => if isWSChunk c then [] else [c]
  | c :: c2 :: rest => c :: dropLastWS (c2 :: rest)

/-- One round of `_wrap_chunks` after the leading-whitespace drop:
greedy fill, then `_handle_long_word` (with `break_long_words=True` a
chunk wider than the whole width is cut at the remaining space). -/
def buildLine (chunks : List (List Char)) : List (List Char) × List (List Char) :=
  let fl := fillLine chunks 0
  match fl.2 with
  | [] => (fl.1, [])
  | r :: rs =>
    if 64 < r.length then
      (fl.1 ++ [r.take (64 - sumLens fl.1)], r.drop (64 - sumLens fl.1) :: rs)
    else (fl.1, r :: rs)

/-- The outer loop of `_wrap_chunks`.  `started` records whether a line
has been emitted yet (`lines` nonempty), which gates the
leading-whitespace drop; fuel makes the recursion structural and is
instantiated with enough budget by `pyWrap`. -/
def wrapLoop : Nat → List (List Char) → Bool → List (List Char)
  | 0, _, _ => []
  | _ + 1, [], _ => []
  | fuel + 1, c :: cs, started =>
    let chunks1 := if started && isWSChunk c then cs else c :: cs
    let bl := buildLine chunks1
    let line := dropLastWS bl.1
    if line.isEmpty then wrapLoop fuel bl.2 started
    else line.flatten :: wrapLoop fuel bl.2 true

def chunksMeasure (l : List (List Char)) : Nat := sumLens l + l.length

/-- `self.text_wrapper.wrap(message)` on the characters of the text. -/
def pyWrap (s : List Char) : List (List Char) :=
  let chunks := splitChunks (munge s)
  wrapLoop (chunksMeasure chunks + 1) chunks false

def pyWrapStr (text : String) : List String :=
  (pyWrap text.data).map (fun l => ⟨l⟩)

/-- A character the wrapper model treats exactly as CPython does:
a space, one of the five munged whitespace characters, or a printable
ASCII character other than `-` (hyphen chunking is not modelled). -/
def modelChar (c : Char) : Bool :=
  (c = ' ' || c ∈ ['\t', '\n', '\x0b', '\x0c', '\r'])
    || (33 ≤ c.toNat && c.toNat ≤ 126 && c ≠ '-')

/-- The words of a text: the maximal non-space runs of the
whitespace-normalized text. -/
def wordsOf (text : String) : List (List Char) :=
  (splitChunks (munge text.data)).filter (fun c => isWSChunk c = false)

/-! Section 3: the outbound message gate
    (`ConfigPydleClient.message_or_notice`, src/ConfigPydle.py lines
    252-277, and its four entry points at lines 281-291), together with
    the legacy gate (`Client.message` / `Client.notice`,
    src/configpydle.py lines 211-237). -/

/-- One delivered protocol message: which engine call was used
(`super().notice` when `is_notice`, else `super().message`), the
target, and the text of the line. -/
structure Send where
  is_notice : Bool
  target : String
  line : String
deriving DecidableEq

/-- Delivery stage of `message_or_notice` (lines 270-277): wrapped
lines plus a trailing single space, the bare message, or a single
space for empty text. -/
def emitted (text : String) (wrap : Bool) : List String :=
  if text ≠ "" ∧ wrap = true then pyWrapStr text ++ [" "]
  else if text ≠ "" then [text]
  else [" "]

/-- Time-indexed observations the gate polls, tick = one
`asyncio.sleep(1)` of the gate's own loops. -/
structure GateEnv where
  ready : Nat → Bool
  is_channel : String → Bool
  in_channel : Nat → String → Bool

/-- A 1-second polling loop: first tick `t` at which `cond` holds, or
`Option.none` if the loop is still running at the fuel horizon. -/
def pollUntil (cond : Nat → Bool) : Nat → Nat → Option Nat
  | 0, t => if cond t then some t else Option.none
  | fuel + 1, t => if cond t then some t else pollUntil cond fuel (t + 1)

/-- `message_or_notice`: poll until `connected and autoperform_done`;
for a channel target, poll membership (each failed `join` attempt is
suppressed and followed by a 1-second sleep); then deliver.
`Option.none` means the call has not returned within the fuel horizon;
`some sends` means it returned after delivering exactly `sends`. -/
def message_or_notice (env : GateEnv) (fuel : Nat) (target text : String)
    (wrap is_notice : Bool) : Option (List Send) :=
  match pollUntil env.ready fuel 0 with
  | Option.none => Option.none
  | some t1 =>
    match (if env.is_channel target then pollUntil (fun t => env.in_channel t target) fuel t1 else some t1) with
    | Option.none => Option.none
    | some _ => some ((emitted text wrap).map (fun line => ⟨is_notice, target, line⟩))

/-- Legacy `Client.message` (src/configpydle.py lines 211-222): when
`connected` is false the call returns at once — the message is
dropped; otherwise at most one join attempt (errors suppressed), then
delivery.  The result is the pair (join attempts, sends) of the call,
which always returns. -/
def Client_message (connected : Bool) (is_channel in_channel : String → Bool)
    (target text : String) : List String × List Send :=
  if connected = false then ([], [])
  else
    let joins := if is_channel target && !in_channel target then [target] else []
    (joins, [⟨false, target, text⟩])

/-! Section 4: the welcome handler
    (`ConfigPydleClient.on_raw_001`, src/ConfigPydle.py lines 182-210):
    identity recovery followed by the autoperform sequence.  The
    environment is the time-indexed current nickname, ticks counting
    the recovery loop's `asyncio.sleep(1)` calls. -/

inductive WAction where
  | raw (line : String)
  | sleep
  | away (msg : String)
  | spawnTask
  | setDone
deriving DecidableEq

def releaseLine (nick : String) : String :=
  "PRIVMSG NickServ :RELEASE " ++ nick ++ "\r\n"

def regainLine (nick : String) : String :=
  "PRIVMSG NickServ :REGAIN " ++ nick ++ "\r\n"

def operLine (u p : String) : String := "OPER " ++ u ++ " " ++ p ++ "\r\n"

def modeLine (nick m : String) : String := "MODE " ++ nick ++ " " ++ m ++ "\r\n"

/-- The configuration keys `on_raw_001` consults.  The optional fields
are `none` when the key is absent from `acconfig`. -/
structure ACConfig where
  nickname : String
  oper_username : Option String
  oper_password : Option String
  connect_modes : Option String
  away_message : Option String
deriving DecidableEq

/-- The recovery wait: `_rem = 10; while _rem and self.nickname !=
nickname: await asyncio.sleep(1); _rem -= 1` (lines 190-193). -/
def nickWait (target : String) (nickAt : Nat → String) : Nat → Nat → List WAction
  | 0, _ => []
  | rem + 1, t =>
    if nickAt t = target then []
    else WAction.sleep :: nickWait target nickAt rem (t + 1)

/-- The autoperform tail of `on_raw_001` (lines 195-210): OPER when
both credentials are configured, MODE on the current nickname when
`connect_modes` is configured, `away` when `away_message` is
configured, then `add_ev_task(self.check_membership())` and finally
`self.autoperform_done = True`. -/
def autoperformActs (cfg : ACConfig) (curNick : String) : List WAction :=
  (match cfg.oper_username, cfg.oper_password with
   | some u, some p => [WAction.raw (operLine u p)]
   | _, _ => []) ++
  (match cfg.connect_modes with
   | some m => [WAction.raw (modeLine curNick m)]
   | Option.none => []) ++
  (match cfg.away_message with
   | some a => [WAction.away a]
   | Option.none => []) ++
  [WAction.spawnTask, WAction.setDone]

/-- `on_raw_001` after the delegation to the base handler: recovery
(RELEASE then REGAIN then the bounded wait) when the current nickname
differs from the configured one, then the autoperform sequence.  The
nickname is observed at tick 0 on entry and thereafter changes only
across the recovery sleeps. -/
def on_raw_001 (cfg : ACConfig) (nickAt : Nat → String) : List WAction :=
  if nickAt 0 = cfg.nickname then autoperformActs cfg (nickAt 0)
  else
    let w := nickWait cfg.nickname nickAt 10 0
    WAction.raw (releaseLine cfg.nickname) :: WAction.raw (regainLine cfg.nickname) ::
      (w ++ autoperformActs cfg (nickAt w.length))

/-! Section 5: the connect wait
    (`ConfigPydleClient.connect`, src/ConfigPydle.py lines 165-178:
    `_rem = connect_timeout; while _rem and not self.connected: await
    asyncio.sleep(1); _rem -= 1`, 1-second ticks; the legacy
    `Client.connect`, src/configpydle.py lines 162-174, runs the same
    loop with `_rem = 20 * connect_timeout` and 0.05-second ticks). -/

/-- The shared wait loop: number of sleeps performed given the budget
and the time-indexed `connected` observation (tick `t` is the `t`-th
check of the loop condition). -/
def connectWaitLoop (connectedAt : Nat → Bool) : Nat → Nat → Nat
  | 0, _ => 0
  | rem + 1, t =>
    if connectedAt t then 0 else connectWaitLoop connectedAt rem (t + 1) + 1

/-- Sleeps performed by the canonical `connect` (1-second ticks). -/
def ConfigPydle_connect_sleeps (timeout : Nat) (connectedAt : Nat → Bool) : Nat :=
  connectWaitLoop connectedAt timeout 0

/-- Sleeps performed by the legacy `connect` (0.05-second ticks, budget
`20 * connect_timeout`). -/
def configpydle_connect_sleeps (timeout : Nat) (connectedAt : Nat → Bool) : Nat :=
  connectWaitLoop connectedAt (20 * timeout) 0

/-! Section 6: one iteration of the membership maintainer
    (`ConfigPydleClient.check_membership`, src/ConfigPydle.py lines
    235-248).  The loop body runs after the iteration's leading
    `asyncio.sleep(1)`; when `connected and autoperform_done` fails it
    does nothing else, otherwise for each configured channel the client
    is not in it attempts a join (any error suppressed — the iteration
    continues either way) followed by a 1-second sleep. -/

inductive MAct where
  | sleep
  | join (channel : String) (failed : Bool)
deriving DecidableEq

def membershipJoins : List String → (String → Bool) → (String → Bool) → List MAct
  | [], _, _ => []
  | c :: cs, inCh, joinFails =>
    (if inCh c then [] else [MAct.join c (joinFails c), MAct.sleep]) ++
      membershipJoins cs inCh joinFails

def check_membership_iter (connected apDone : Bool) (channels : List String)
    (inCh joinFails : String → Bool) : List MAct :=
  MAct.sleep ::
    (if connected && apDone then membershipJoins channels inCh joinFails else [])

/-! Section 7: the disconnect handler
    (`ConfigPydleClient.on_disconnect`, src/ConfigPydle.py lines
    214-231, and `add_ev_task`, lines 157-161).

    `add_ev_task` installs `self.ev_tasks.discard` as a done callback
    on every registered task, so a task still in the registry is
    pending, and cancelling and awaiting it completes it and removes it
    from the set before the `await` resumes; the handler's own
    `self.ev_tasks.discard(task)` removes it in any case.  The handler,
    however, iterates `self.ev_tasks` itself.  A CPython set iterator
    compares the set's current size against the size captured at
    iterator creation on every `next()` call — including the final one
    — and raises `RuntimeError('Set changed size during iteration')`
    on a mismatch.  That `next()` happens in the `for` statement,
    outside both `try` blocks.  The model makes the iterator's size
    check explicit. -/

structure EvTask where
  taskId : Nat
  cancelRaises : Bool
  awaitRaises : Bool
deriving DecidableEq

/-- The outcome of `task.cancel(); await task` for one task (either may
raise; `await` on a cancelled task typically raises `CancelledError`). -/
def cancelAwaitResult (t : EvTask) : Except String Unit :=
  if t.cancelRaises then Except.error "exception from task.cancel"
  else if t.awaitRaises then Except.error "CancelledError"
  else Except.ok ()

def removeTask (cur : List EvTask) (t : EvTask) : List EvTask :=
  cur.filter (fun u => u.taskId ≠ t.taskId)

/-- The loop body for one yielded task: the bare `except: pass` blocks
suppress whatever `cancel`/`await` raise; completing the task fires its
done callback (`ev_tasks.discard`), and the explicit
`self.ev_tasks.discard(task)` is idempotent on top of it. -/
def dcLoopBody (cur : List EvTask) (t : EvTask) : List EvTask :=
  let _ := (match cancelAwaitResult t with
            | Except.ok _ => ()
            | Except.error _ => ())
  removeTask (removeTask cur t) t

/-- The `for task in self.ev_tasks` loop with CPython's set-iterator
semantics: every `next()` first compares the set's current size with
`iterSize`, the size captured when iteration began. -/
def dcLoop (iterSize : Nat) : List EvTask → List EvTask → Except String (List EvTask)
  | [], cur =>
    if cur.length ≠ iterSize then
      Except.error "RuntimeError: Set changed size during iteration"
    else Except.ok cur
  | t :: rest, cur =>
    if cur.length ≠ iterSize then
      Except.error "RuntimeError: Set changed size during iteration"
    else dcLoop iterSize rest (dcLoopBody cur t)

structure DCState where
  autoperform_done : Bool
  ev_tasks : List EvTask
deriving DecidableEq

/-- `on_disconnect` after the delegation to the base handler: set
`autoperform_done = False`, then run the cleanup loop.  The first
component is the new `autoperform_done`; the second is the loop's
outcome — the registry contents on normal return, or the propagated
error. -/
def on_disconnect (st : DCState) : Bool × Except String (List EvTask) :=
  (false, dcLoop st.ev_tasks.length st.ev_tasks st.ev_tasks)

/-! Section 8: concrete inputs used by witnesses and counterexamples. -/

def sampleRaw : List (String × String) :=
  [("hostname", "irc.example.com"), ("nickname", "acbot"), ("realname", "AC Bot"),
   ("username", "acbot"), ("connect_timeout", "10"), ("port", "6697")]

/-- A settings file naming every required key in which `port = yes`:
the claimed non-integer that construction nevertheless accepts. -/
def portYesRaw : List (String × String) :=
  [("hostname", "irc.example.com"), ("nickname", "acbot"), ("realname", "AC Bot"),
   ("username", "acbot"), ("connect_timeout", "10"), ("port", "yes")]

/-- A settings file in which both `port` and `connect_timeout` are
boolean words. -/
def boolWordsRaw : List (String × String) :=
  [("hostname", "irc.example.com"), ("nickname", "acbot"), ("realname", "AC Bot"),
   ("username", "acbot"), ("connect_timeout", "true"), ("port", "yes")]

/-- A settings file missing the required `nickname` key. -/
def missingNickRaw : List (String × String) :=
  [("hostname", "irc.example.com"), ("realname", "AC Bot"),
   ("username", "acbot"), ("connect_timeout", "10"), ("port", "6697")]

def text65 : String := ⟨List.replicate 65 'a'⟩

def sampleGateEnv : GateEnv :=
  { ready := fun t => decide (2 ≤ t)
    is_channel := fun s => s.startsWith "#"
    in_channel := fun t _ => decide (3 ≤ t) }

def sampleCfg : ACConfig :=
  { nickname := "acbot"
    oper_username := some "op"
    oper_password := some "pw"
    connect_modes := some "+gz"
    away_message := some "afk" }

def plainCfg : ACConfig :=
  { nickname := "acbot"
    oper_username := Option.none
    oper_password := some "pw"
    connect_modes := Option.none
    away_message := Option.none }

/-- A nickname trace that starts wrong and never recovers. -/
def stuckNickAt : Nat → String := fun _ => "acbot2"

/-- A nickname trace that starts wrong and recovers at tick 4. -/
def lateNickAt : Nat → String := fun t => if 4 ≤ t then "acbot" else "acbot2"

def okNickAt : Nat → String := fun _ => "acbot"

def sampleConnectedAt : Nat → Bool := fun t => decide (2 ≤ t)

/-! Section 9: observation predicates used by the theorems. -/

/-- Every join in the trace is immediately followed by a 1-second
sleep (the rate limit of the membership loop). -/
def spacedJoins : List MAct → Bool
  | [] => true
  | MAct.sleep :: rest => spacedJoins rest
  | MAct.join _ _ :: MAct.sleep :: rest => spacedJoins (MAct.sleep :: rest)
  | MAct.join _ _ :: _ => false

def startsWithChars (pre : List Char) (s : String) : Bool :=
  List.isPrefixOf pre s.data

/-- The action is a raw NickServ PRIVMSG (a recovery request). -/
def isNSRaw : WAction → Bool
  | WAction.raw s => startsWithChars ("PRIVMSG NickServ".data) s
  | _ => false

def isReleaseRaw : WAction → Bool
  | WAction.raw s => startsWithChars ("PRIVMSG NickServ :RELEASE ".data) s
  | _ => false

def isRegainRaw : WAction → Bool
  | WAction.raw s => startsWithChars ("PRIVMSG NickServ :REGAIN ".data) s
  | _ => false

def isOperRaw : WAction → Bool
  | WAction.raw s => startsWithChars ("OPER ".data) s
  | _ => false

def isModeRaw : WAction → Bool
  | WAction.raw s => startsWithChars ("MODE ".data) s
  | _ => false

def isAwayAct : WAction → Bool
  | WAction.away _ => true
  | _ => false

/-- A wrap-worthy sample text, longer than 64 characters, hyphen-free
printable ASCII. -/
def wmsg : String :=
  "alpha beta gamma delta epsilon zeta eta theta iota kappa lambda mu nu"

/-! Supporting lemmas and claim theorems. -/

theorem foldlInsertPairs_extends (l : List (String × String)) :
    ∀ d, ∃ e, l.foldl (fun acc kv => if hasKey acc kv.1 then acc else acc ++ [kv]) d = d ++ e := by
  induction l with
  | nil => intro d; exact ⟨[], by simp⟩
  | cons kv l ih =>
    intro d
    simp only [List.foldl_cons]
    by_cases h : hasKey d kv.1 = true
    · simpa [h] using ih d
    · obtain ⟨e, he⟩ := ih (d ++ [kv])
      refine ⟨[kv] ++ e, ?_⟩
      simp only [Bool.not_eq_true] at h
      rw [h]
      simp only [Bool.false_eq_true, if_false]
      rw [he, List.append_assoc]

theorem foldlInsertKeys_extends (l : List String) :
    ∀ r, ∃ e, l.foldl (fun acc k => if k ∈ acc then acc else acc ++ [k]) r = r ++ e := by
  induction l with
  | nil => intro r; exact ⟨[], by simp⟩
  | cons k l ih =>
    intro r
    simp only [List.foldl_cons]
    by_cases h : k ∈ r
    · simpa [h] using ih r
    · obtain ⟨e, he⟩ := ih (r ++ [k])
      refine ⟨[k] ++ e, ?_⟩
      rw [if_neg h, he, List.append_assoc]

/-- C9: the constructor mutates the shared `default_config_keys` dict
and `required_config_keys` list in place (the caller's entries stay,
the builtin entries are appended), and since Python evaluates the `{}`
and `[]` defaults once, a construction that omits the arguments starts
from whatever an earlier construction left there: after a first call
the shared objects hold the builtin entries, and a second call observes
exactly those entries rather than an empty dict and list. -/
theorem claimC9_mutable_default_arguments :
    ctorMutateShared initialSharedDefaults =
      ⟨builtinDefaultConfigKeys, builtinRequiredConfigKeys⟩ ∧
    ctorMutateShared (ctorMutateShared initialSharedDefaults) =
      ctorMutateShared initialSharedDefaults ∧
    (∀ d, ∃ e, mutateDefaultConfigKeys d = d ++ e) ∧
    (∀ r, ∃ e, mutateRequiredConfigKeys r = r ++ e) := by
  refine ⟨by decide, by decide, ?_, ?_⟩
  · intro d; exact foldlInsertPairs_extends builtinDefaultConfigKeys d
  · intro r; exact foldlInsertKeys_extends builtinRequiredConfigKeys r

theorem connectWaitLoop_le (connectedAt : Nat → Bool) :
    ∀ rem t0, connectWaitLoop connectedAt rem t0 ≤ rem := by
  intro rem
  induction rem with
  | zero => intro t0; simp [connectWaitLoop]
  | succ r ih =>
    intro t0
    simp only [connectWaitLoop]
    by_cases h : connectedAt t0 = true
    · simp [h]
    · simp only [Bool.not_eq_true] at h
      simp only [h, Bool.false_eq_true, if_false]
      exact Nat.succ_le_succ (ih (t0 + 1))

theorem connectWaitLoop_early (connectedAt : Nat → Bool) :
    ∀ rem t0 j, t0 ≤ j → connectedAt j = true →
      connectWaitLoop connectedAt rem t0 ≤ j - t0 := by
  intro rem
  induction rem with
  | zero => intro t0 j _ _; simp [connectWaitLoop]
  | succ r ih =>
    intro t0 j hle hj
    simp only [connectWaitLoop]
    by_cases h : connectedAt t0 = true
    · simp [h]
    · simp only [Bool.not_eq_true] at h
      simp only [h, Bool.false_eq_true, if_false]
      have hne : t0 ≠ j := by
        intro he; rw [he] at h; rw [h] at hj; exact Bool.false_ne_true hj
      have hlt : t0 + 1 ≤ j := Nat.lt_of_le_of_ne hle hne
      have := ih (t0 + 1) j hlt hj
      omega

/-- C6: the canonical `connect` performs at most `connect_timeout`
one-second wait ticks after the engine's connect call returns, stops as
soon as `connected` is observed true, and returns normally either way
(the wait is a total function of the observations); the legacy variant
performs at most `20 * connect_timeout` ticks of 0.05 seconds — the
same one-second bound on total wait time. -/
theorem claimC6_connect_timeout_bound (t : Nat) (connectedAt : Nat → Bool)
    (h1 : 1 ≤ t) (h30 : t ≤ 30) :
    ConfigPydle_connect_sleeps t connectedAt ≤ t ∧
    (∀ j, connectedAt j = true → ConfigPydle_connect_sleeps t connectedAt ≤ j) ∧
    (connectedAt 0 = true → ConfigPydle_connect_sleeps t connectedAt = 0) ∧
    configpydle_connect_sleeps t connectedAt ≤ 20 * t := by
  refine ⟨connectWaitLoop_le connectedAt t 0, ?_, ?_, connectWaitLoop_le connectedAt (20 * t) 0⟩
  · intro j hj
    have := connectWaitLoop_early connectedAt t 0 j (Nat.zero_le j) hj
    simpa [ConfigPydle_connect_sleeps] using this
  · intro h0
    have := connectWaitLoop_early connectedAt t 0 0 (Nat.le_refl 0) h0
    simpa [ConfigPydle_connect_sleeps] using this

theorem claimC6_witness :
    ConfigPydle_connect_sleeps 10 sampleConnectedAt ≤ 10 ∧
    ConfigPydle_connect_sleeps 10 sampleConnectedAt ≤ 2 ∧
    configpydle_connect_sleeps 10 sampleConnectedAt ≤ 200 := by
  have h := claimC6_connect_timeout_bound 10 sampleConnectedAt (by decide) (by decide)
  exact ⟨h.1, h.2.1 2 (by decide), h.2.2.2⟩

theorem membershipJoins_eq (inCh joinFails : String → Bool) :
    ∀ cs : List String,
      membershipJoins cs inCh joinFails =
        (cs.filter (fun c => !inCh c)).flatMap
          (fun c => [MAct.join c (joinFails c), MAct.sleep]) := by
  intro cs
  induction cs with
  | nil => simp [membershipJoins]
  | cons c cs ih =>
    by_cases h : inCh c = true
    · simp [membershipJoins, h, ih]
    · simp only [Bool.not_eq_true] at h
      simp [membershipJoins, h, ih]

theorem spacedJoins_flatMap (joinFails : String → Bool) :
    ∀ cs : List String,
      spacedJoins (cs.flatMap (fun c => [MAct.join c (joinFails c), MAct.sleep])) = true := by
  intro cs
  induction cs with
  | nil => simp [spacedJoins]
  | cons c cs ih => simpa [spacedJoins] using ih

/-- C5: one membership-maintainer iteration with `connected` and
`autoperform_done` both true joins exactly the configured channels the
client is not in — the trace is the leading sleep followed by a
join-then-sleep block for each such channel, whatever the join
outcomes are (errors are suppressed, the loop continues); channels
already joined get no join; a join is always immediately followed by a
1-second sleep; and when the readiness conjunction is false the
iteration performs no joins at all. -/
theorem claimC5_membership_iteration (connected apDone : Bool) (channels : List String)
    (inCh joinFails : String → Bool) :
    ((connected && apDone) = true →
      check_membership_iter connected apDone channels inCh joinFails =
        MAct.sleep :: (channels.filter (fun c => !inCh c)).flatMap
          (fun c => [MAct.join c (joinFails c), MAct.sleep])) ∧
    ((connected && apDone) = false →
      check_membership_iter connected apDone channels inCh joinFails = [MAct.sleep]) ∧
    spacedJoins (check_membership_iter connected apDone channels inCh joinFails) = true ∧
    (∀ c f, MAct.join c f ∈ check_membership_iter connected apDone channels inCh joinFails →
      inCh c = false ∧ f = joinFails c) := by
  refine ⟨?_, ?_, ?_, ?_⟩
  · intro h
    simp [check_membership_iter, h, membershipJoins_eq]
  · intro h
    simp [check_membership_iter, h]
  · by_cases h : (connected && apDone) = true
    · simp only [check_membership_iter, h, if_true, membershipJoins_eq]
      simpa [spacedJoins] using spacedJoins_flatMap joinFails (channels.filter (fun c => !inCh c))
    · simp only [Bool.not_eq_true] at h
      simp [check_membership_iter, h, spacedJoins]
  · intro c f hmem
    by_cases h : (connected && apDone) = true
    · simp only [check_membership_iter, h, if_true, membershipJoins_eq] at hmem
      rcases List.mem_cons.mp hmem with habs | hmem2
      · exact absurd habs (by simp)
      · rcases List.mem_flatMap.mp hmem2 with ⟨a, ha, hin⟩
        have hfa : (!inCh a) = true := (List.mem_filter.mp ha).2
        rcases List.mem_cons.mp hin with he | hin2
        · have hc : c = a ∧ f = joinFails a := by simpa using he
          rcases hc with ⟨rfl, rfl⟩
          exact ⟨by simpa using hfa, rfl⟩
        · rcases List.mem_singleton.mp hin2 with habs
          exact absurd habs (by simp)
    · simp only [Bool.not_eq_true] at h
      simp only [check_membership_iter, h, Bool.false_eq_true, if_false] at hmem
      rcases List.mem_singleton.mp hmem with habs
      exact absurd habs (by simp)

theorem claimC5_witness :
    check_membership_iter true true ["#a", "#b"] (fun c => decide (c = "#a")) (fun _ => false) =
      MAct.sleep :: (["#a", "#b"].filter (fun c => !(decide (c = "#a")))).flatMap
        (fun c => [MAct.join c false, MAct.sleep]) ∧
    spacedJoins (check_membership_iter true true ["#a", "#b"]
      (fun c => decide (c = "#a")) (fun _ => false)) = true := by
  have h := claimC5_membership_iteration true true ["#a", "#b"]
    (fun c => decide (c = "#a")) (fun _ => false)
  exact ⟨h.1 (by decide), h.2.2.1⟩

theorem removeTask_length_lt (t : EvTask) :
    ∀ cur : List EvTask, t ∈ cur → (removeTask cur t).length < cur.length := by
  intro cur
  induction cur with
  | nil => intro h; exact absurd h (List.not_mem_nil t)
  | cons u cur ih =>
    intro h
    rcases List.mem_cons.mp h with h1 | hm
    · rw [h1]
      have hpred : (decide (u.taskId ≠ u.taskId)) = false := by simp
      simp only [removeTask, List.filter_cons, hpred, Bool.false_eq_true, if_false]
      exact Nat.lt_succ_of_le (List.length_filter_le _ _)
    · have hle := ih hm
      simp only [removeTask, List.filter_cons]
      by_cases hp : (decide (u.taskId ≠ t.taskId)) = true
      · simp only [hp, if_true, List.length_cons]
        exact Nat.succ_lt_succ hle
      · simp only [Bool.not_eq_true] at hp
        simp only [hp, Bool.false_eq_true, if_false]
        calc (removeTask cur t).length < cur.length := hle
          _ < (u :: cur).length := by simp

theorem dcLoop_error_of_shrunk (n : Nat) (toYield cur : List EvTask) (h : cur.length < n) :
    dcLoop n toYield cur = Except.error "RuntimeError: Set changed size during iteration" := by
  cases toYield with
  | nil => simp only [dcLoop]; rw [if_pos (Nat.ne_of_lt h)]
  | cons t rest => simp only [dcLoop]; rw [if_pos (Nat.ne_of_lt h)]

/-- For any nonempty registry the disconnect cleanup loop propagates
the set-iterator's RuntimeError: the first task's removal (by its done
callback and the explicit discard) shrinks the set, and the very next
`next()` call of the `for` statement — outside both `try` blocks —
detects the size change. -/
theorem on_disconnect_raises_of_nonempty (st : DCState) (h : st.ev_tasks ≠ []) :
    on_disconnect st =
      (false, Except.error "RuntimeError: Set changed size during iteration") := by
  rcases hE : st.ev_tasks with _ | ⟨t, rest⟩
  · exact absurd hE h
  · have hbody : (dcLoopBody (t :: rest) t).length < (t :: rest).length := by
      have h1 : (removeTask (t :: rest) t).length < (t :: rest).length :=
        removeTask_length_lt t (t :: rest) (List.mem_cons_self t rest)
      have h2 : (removeTask (removeTask (t :: rest) t) t).length ≤ (removeTask (t :: rest) t).length :=
        List.length_filter_le _ _
      simp only [dcLoopBody]
      omega
    have herr := dcLoop_error_of_shrunk (t :: rest).length rest (dcLoopBody (t :: rest) t) hbody
    have hod : on_disconnect st = (false, dcLoop (t :: rest).length (t :: rest) (t :: rest)) := by
      unfold on_disconnect
      rw [hE]
    have hstep : dcLoop (t :: rest).length (t :: rest) (t :: rest) =
        dcLoop (t :: rest).length rest (dcLoopBody (t :: rest) t) := by
      simp only [dcLoop]
      rw [if_neg (fun hc => hc rfl)]
    rw [hod, hstep, herr]

/-- C1: the claim is the documented intent — `autoperform_done` is
reset and every registered task's cancellation, await and removal are
error-suppressed so the handler never propagates — and the handler
does reset the flag, but the cleanup loop iterates the live
`self.ev_tasks` set while each iteration removes the yielded task from
it, so with any registered task at all the `for` statement itself
raises `RuntimeError('Set changed size during iteration')` on its next
`next()` call, outside the `try` blocks; only an empty registry
returns normally. -/
theorem claimC1_disconnect_set_mutation_runtime_error :
    on_disconnect ⟨true, [⟨0, false, true⟩]⟩ =
      (false, Except.error "RuntimeError: Set changed size during iteration") ∧
    on_disconnect ⟨true, [⟨1, true, false⟩, ⟨2, false, true⟩]⟩ =
      (false, Except.error "RuntimeError: Set changed size during iteration") ∧
    on_disconnect ⟨false, []⟩ = (false, Except.ok []) := ⟨rfl, rfl, rfl⟩

theorem natDigitChar_mem (d : Nat) : natDigitChar d ∈ digitChars := by
  unfold natDigitChar
  repeat' split
  all_goals decide

theorem natDigits_mem : ∀ fuel n c, c ∈ natDigits fuel n → c ∈ digitChars := by
  intro fuel
  induction fuel with
  | zero => intro n c h; exact absurd h (List.not_mem_nil c)
  | succ f ih =>
    intro n c h
    simp only [natDigits] at h
    by_cases hn : n < 10
    · rw [if_pos hn] at h
      rcases List.mem_singleton.mp h with rfl
      exact natDigitChar_mem n
    · rw [if_neg hn] at h
      rcases List.mem_append.mp h with h2 | h2
      · exact ih (n / 10) c h2
      · rcases List.mem_singleton.mp h2 with rfl
        exact natDigitChar_mem (n % 10)

theorem intChars_mem (n : Int) (c : Char) (h : c ∈ intChars n) :
    c = '-' ∨ c ∈ digitChars := by
  unfold intChars at h
  by_cases hn : n < 0
  · rw [if_pos hn] at h
    rcases List.mem_cons.mp h with rfl | h2
    · exact Or.inl rfl
    · exact Or.inr (natDigits_mem _ _ c h2)
  · rw [if_neg hn] at h
    exact Or.inr (natDigits_mem _ _ c h)

theorem toLower_digitlike (c : Char) (h : c = '-' ∨ c ∈ digitChars) :
    Char.toLower c = c := by
  rcases h with rfl | h
  · decide
  · fin_cases h <;> decide

theorem mapToLower_fixed : ∀ l : List Char, (∀ c ∈ l, Char.toLower c = c) →
    l.map Char.toLower = l := by
  intro l
  induction l with
  | nil => intro _; rfl
  | cons c l ih =>
    intro h
    simp only [List.map_cons]
    rw [h c (List.mem_cons_self c l), ih (fun d hd => h d (List.mem_cons_of_mem c hd))]

theorem pyLower_int (n : Int) :
    pyLower (strOfCVal (CVal.int n)) = ⟨intChars n⟩ := by
  unfold pyLower strOfCVal
  have : (String.mk (intChars n)).data = intChars n := rfl
  rw [this, mapToLower_fixed (intChars n) (fun c hc => toLower_digitlike c (intChars_mem n c hc))]

theorem intStr_ne (n : Int) (s : String) (c : Char)
    (hc : c ∈ s.data) (hminus : c ≠ '-') (hdig : c ∉ digitChars) :
    (⟨intChars n⟩ : String) ≠ s := by
  intro he
  have hdata : intChars n = s.data := congrArg String.data he
  rw [← hdata] at hc
  rcases intChars_mem n c hc with h1 | h1
  · exact hminus h1
  · exact hdig h1

theorem coerce_int_fix (v : String) (n : Int) (hp : pyParseInt v = some n) :
    coerceValue v = CVal.int n := by
  unfold coerceValue
  rw [hp]
  have hf : pyLower (strOfCVal (CVal.int n)) ∉ booleanFalseValues := by
    rw [pyLower_int]
    simp only [booleanFalseValues, List.mem_cons, List.not_mem_nil, or_false, not_or]
    constructor
    · exact intStr_ne n "false" 'f' (by decide) (by decide) (by decide)
    · exact intStr_ne n "no" 'o' (by decide) (by decide) (by decide)
  have ht : pyLower (strOfCVal (CVal.int n)) ∉ booleanTrueValues := by
    rw [pyLower_int]
    simp only [booleanTrueValues, List.mem_cons, List.not_mem_nil, or_false, not_or]
    constructor
    · exact intStr_ne n "true" 't' (by decide) (by decide) (by decide)
    · exact intStr_ne n "yes" 'y' (by decide) (by decide) (by decide)
  have hn : pyLower (strOfCVal (CVal.int n)) ≠ "none" := by
    rw [pyLower_int]
    exact intStr_ne n "none" 'o' (by decide) (by decide) (by decide)
  simp only [if_neg hf, if_neg ht, if_neg hn]

theorem coerce_false_word (v : String) (hp : pyParseInt v = Option.none)
    (hm : pyLower v ∈ booleanFalseValues) : coerceValue v = CVal.bool false := by
  unfold coerceValue
  rw [hp]
  have hv : strOfCVal (CVal.str v) = v := rfl
  simp only [hv, if_pos hm]
  decide

theorem coerce_true_word (v : String) (hp : pyParseInt v = Option.none)
    (hm : pyLower v ∈ booleanTrueValues) : coerceValue v = CVal.bool true := by
  unfold coerceValue
  rw [hp]
  have hv : strOfCVal (CVal.str v) = v := rfl
  have hnf : pyLower v ∉ booleanFalseValues := by
    simp only [booleanTrueValues, List.mem_cons, List.not_mem_nil, or_false] at hm
    rcases hm with he | he <;> rw [he] <;> decide
  simp only [hv, if_neg hnf, if_pos hm]
  decide

theorem coerce_none_word (v : String) (hp : pyParseInt v = Option.none)
    (hnf : pyLower v ∉ booleanFalseValues) (hnt : pyLower v ∉ booleanTrueValues)
    (hn : pyLower v = "none") : coerceValue v = CVal.none := by
  unfold coerceValue
  rw [hp]
  have hv : strOfCVal (CVal.str v) = v := rfl
  simp only [hv, if_neg hnf, if_neg hnt, if_pos hn]

/-- C10: the coercion loop treats every key the same way — integer
strings become integers, case-insensitive `'false'`/`'no'` become
`False`, `'true'`/`'yes'` become `True`, `'none'` becomes `None` —
and consequently `port = yes` and `connect_timeout = true` become the
boolean `True`, which passes the integer validation because Python's
`bool` is a subclass of `int` and `True == 1` lies within every
`[1, max]` range: construction succeeds on such a file. -/
theorem claimC10_uniform_coercion_boolean_int :
    (∀ v n, pyParseInt v = some n → coerceValue v = CVal.int n) ∧
    (∀ v, pyParseInt v = Option.none → pyLower v ∈ booleanFalseValues →
      coerceValue v = CVal.bool false) ∧
    (∀ v, pyParseInt v = Option.none → pyLower v ∈ booleanTrueValues →
      coerceValue v = CVal.bool true) ∧
    (∀ v, pyParseInt v = Option.none → pyLower v ∉ booleanFalseValues →
      pyLower v ∉ booleanTrueValues → pyLower v = "none" → coerceValue v = CVal.none) ∧
    (∀ raw k v, (k, v) ∈ raw → (k, coerceValue v) ∈ coerceAll raw) ∧
    coerceValue "yes" = CVal.bool true ∧
    coerceValue "true" = CVal.bool true ∧
    pyIsInt (CVal.bool true) = true ∧
    cvalInt (CVal.bool true) = 1 ∧
    buildConfig boolWordsRaw builtinRequiredConfigKeys =
      Except.ok [("hostname", CVal.str "irc.example.com"), ("nickname", CVal.str "acbot"),
        ("realname", CVal.str "AC Bot"), ("username", CVal.str "acbot"),
        ("connect_timeout", CVal.bool true), ("port", CVal.bool true)] := by
  refine ⟨coerce_int_fix, coerce_false_word, coerce_true_word, coerce_none_word,
    ?_, by decide, by decide, rfl, rfl, rfl⟩
  intro raw k v h
  exact List.mem_map_of_mem (fun kv => (kv.1, coerceValue kv.2)) h

theorem claimC10_witness :
    coerceValue "42" = CVal.int 42 ∧
    coerceValue "-7" = CVal.int (-7) ∧
    coerceValue "No" = CVal.bool false ∧
    coerceValue "YES" = CVal.bool true ∧
    coerceValue "None" = CVal.none := by
  have h := claimC10_uniform_coercion_boolean_int
  exact ⟨h.1 "42" 42 (by decide), h.1 "-7" (-7) (by decide),
    h.2.1 "No" (by decide) (by decide),
    h.2.2.1 "YES" (by decide) (by decide),
    h.2.2.2.1 "None" (by decide) (by decide) (by decide) (by decide)⟩

theorem requiredCheck_names_missing :
    ∀ (req : List String) (m : List (String × CVal)),
      (∃ k, k ∈ req ∧ lookupVal m k = Option.none) →
      ∃ k, k ∈ req ∧ lookupVal m k = Option.none ∧
        requiredCheck req m =
          Except.error (PyErr.keyError ("Required key " ++ k ++ " in config file is missing")) := by
  intro req
  induction req with
  | nil =>
    intro m h
    rcases h with ⟨k, hk, _⟩
    exact absurd hk (List.not_mem_nil k)
  | cons k0 ks ih =>
    intro m h
    rcases hl : lookupVal m k0 with _ | x
    · refine ⟨k0, List.mem_cons_self k0 ks, hl, ?_⟩
      simp only [requiredCheck, hl]
    · rcases h with ⟨k, hk, hn⟩
      rcases List.mem_cons.mp hk with rfl | hk2
      · rw [hl] at hn
        exact absurd hn (by simp)
      · rcases ih m ⟨k, hk2, hn⟩ with ⟨k2, hk3, hn3, he3⟩
        refine ⟨k2, List.mem_cons_of_mem k0 hk3, hn3, ?_⟩
        simp only [requiredCheck, hl]
        exact he3

theorem intRangeCheck_ok_ranges :
    ∀ (lst : List (String × Int)) (m : List (String × CVal)),
      intRangeCheck lst m = Except.ok () →
      ∀ v mx, (v, mx) ∈ lst →
        ∃ x, lookupVal m v = some x ∧ pyIsInt x = true ∧ 1 ≤ cvalInt x ∧ cvalInt x ≤ mx := by
  intro lst
  induction lst with
  | nil =>
    intro m _ v mx hmem
    exact absurd hmem (List.not_mem_nil (v, mx))
  | cons p rest ih =>
    rcases p with ⟨v0, mx0⟩
    intro m hok v mx hmem
    rcases hl : lookupVal m v0 with _ | x
    · simp only [intRangeCheck, hl] at hok
      exact absurd hok (by simp)
    · simp only [intRangeCheck, hl] at hok
      by_cases h1 : pyIsInt x = false
      · rw [if_pos h1] at hok
        exact absurd hok (by simp)
      · rw [if_neg h1] at hok
        by_cases h2 : cvalInt x < 1
        · rw [if_pos h2] at hok
          exact absurd hok (by simp)
        · rw [if_neg h2] at hok
          by_cases h3 : mx0 < cvalInt x
          · rw [if_pos h3] at hok
            exact absurd hok (by simp)
          · rw [if_neg h3] at hok
            rcases List.mem_cons.mp hmem with he | hmem2
            · have hv : v = v0 ∧ mx = mx0 := by
                have := Prod.mk.injEq v mx v0 mx0 ▸ he
                exact ⟨congrArg Prod.fst he, congrArg Prod.snd he⟩
              rcases hv with ⟨rfl, rfl⟩
              refine ⟨x, hl, ?_, by omega, by omega⟩
              rcases hb : pyIsInt x with _ | _
              · exact absurd hb h1
              · rfl
            · exact ih m hok v mx hmem2

theorem buildConfig_error_of_required (raw : List (String × String)) (req : List String)
    (e : PyErr) (h : requiredCheck req (coerceAll raw) = Except.error e) :
    buildConfig raw req = Except.error e := by
  simp only [buildConfig]
  rw [h]

theorem buildConfig_ok_elim (raw : List (String × String)) (req : List String)
    (m : List (String × CVal)) (h : buildConfig raw req = Except.ok m) :
    intRangeCheck varIntMax (coerceAll raw) = Except.ok () ∧ m = coerceAll raw := by
  simp only [buildConfig] at h
  rcases h1 : requiredCheck req (coerceAll raw) with e | u
  · rw [h1] at h
    exact absurd h (by simp)
  · rw [h1] at h
    rcases h2 : intRangeCheck varIntMax (coerceAll raw) with e | u2
    · rw [h2] at h
      exact absurd h (by simp)
    · rw [h2] at h
      have hm : m = coerceAll raw := by
        injection h with h3
        exact h3.symm
      exact ⟨by cases u2; rfl, hm⟩

/-- C7 (amended): a settings map missing a required key fails
construction with a `KeyError` naming a missing required key, and a
successful construction guarantees that `connect_timeout` and `port`
each hold a value passing Python's integer check with
`1 ≤ value ≤ max` — but Python's integer check also accepts booleans
(`True == 1`), so a value coerced from `'yes'`/`'true'` is accepted
rather than rejected as a non-integer.  All of this is pure
computation preceding any network activity. -/
theorem claimC7_construction_validation :
    (∀ (raw : List (String × String)) (req : List String),
      (∃ k, k ∈ req ∧ lookupVal (coerceAll raw) k = Option.none) →
      ∃ k, k ∈ req ∧ lookupVal (coerceAll raw) k = Option.none ∧
        buildConfig raw req =
          Except.error (PyErr.keyError ("Required key " ++ k ++ " in config file is missing"))) ∧
    (∀ (raw : List (String × String)) (req : List String) (m : List (String × CVal)),
      buildConfig raw req = Except.ok m →
      ∀ v mx, (v, mx) ∈ varIntMax →
        ∃ x, lookupVal m v = some x ∧ pyIsInt x = true ∧ 1 ≤ cvalInt x ∧ cvalInt x ≤ mx) ∧
    coerceValue "yes" = CVal.bool true ∧ pyIsInt (CVal.bool true) = true ∧
    cvalInt (CVal.bool true) = 1 := by
  refine ⟨?_, ?_, by decide, rfl, rfl⟩
  · intro raw req h
    rcases requiredCheck_names_missing req (coerceAll raw) h with ⟨k, hk, hn, he⟩
    exact ⟨k, hk, hn, buildConfig_error_of_required raw req _ he⟩
  · intro raw req m h v mx hmem
    rcases buildConfig_ok_elim raw req m h with ⟨hok, rfl⟩
    exact intRangeCheck_ok_ranges varIntMax (coerceAll raw) hok v mx hmem

/-- C7 counterexample: with `port = yes` in the file — a value that is
not an integer — the coercion yields the boolean `True` and
construction succeeds instead of raising the claimed error. -/
theorem claimC7_counterexample :
    coerceValue "yes" = CVal.bool true ∧
    buildConfig portYesRaw builtinRequiredConfigKeys =
      Except.ok [("hostname", CVal.str "irc.example.com"), ("nickname", CVal.str "acbot"),
        ("realname", CVal.str "AC Bot"), ("username", CVal.str "acbot"),
        ("connect_timeout", CVal.int 10), ("port", CVal.bool true)] := ⟨by decide, rfl⟩

theorem claimC7_witness :
    buildConfig missingNickRaw builtinRequiredConfigKeys =
      Except.error (PyErr.keyError "Required key nickname in config file is missing") ∧
    pyIsInt (CVal.int 6697) = true ∧ 1 ≤ cvalInt (CVal.int 6697) ∧
    cvalInt (CVal.int 6697) ≤ 65535 := by
  obtain ⟨k, hk, hn, he⟩ := claimC7_construction_validation.1 missingNickRaw
    builtinRequiredConfigKeys ⟨"nickname", by decide, by decide⟩
  constructor
  · fin_cases hk
    · exact absurd hn (by decide)
    · exact he
    · exact absurd hn (by decide)
    · exact absurd hn (by decide)
  · have hok : buildConfig sampleRaw builtinRequiredConfigKeys =
        Except.ok (coerceAll sampleRaw) := rfl
    obtain ⟨x, hx, hi, h1, h2⟩ := claimC7_construction_validation.2.1 sampleRaw
      builtinRequiredConfigKeys (coerceAll sampleRaw) hok "port" 65535 (by decide)
    have hx2 : lookupVal (coerceAll sampleRaw) "port" = some (CVal.int 6697) := by decide
    have hxx : CVal.int 6697 = x := by
      have := hx2.symm.trans hx
      injection this
    rw [← hxx] at hi h1 h2
    exact ⟨hi, h1, h2⟩

theorem prefixes_comparable (a b v : List Char) (h : a <+: b ++ v) :
    a <+: b ∨ b <+: a := by
  have hb : b <+: b ++ v := List.prefix_append b v
  rcases Nat.le_total a.length b.length with hl | hl
  · exact Or.inl ( List.prefix_of_prefix_length_le h hb hl)
  · exact Or.inr ( List.prefix_of_prefix_length_le hb h hl)

theorem isPrefixOf_append_false (p b t : List Char)
    (h1 : List.isPrefixOf p b = false) (h2 : List.isPrefixOf b p = false) :
    List.isPrefixOf p (b ++ t) = false := by
  by_contra hc
  rw [Bool.not_eq_false] at hc
  rcases prefixes_comparable p b t ( List.isPrefixOf_iff_prefix.mp hc) with h | h
  · have := List.isPrefixOf_iff_prefix.mpr h
    rw [h1] at this
    exact Bool.false_ne_true this
  · have := List.isPrefixOf_iff_prefix.mpr h
    rw [h2] at this
    exact Bool.false_ne_true this

theorem isPrefixOf_append_true (p b t : List Char) (h : List.isPrefixOf p b = true) :
    List.isPrefixOf p (b ++ t) = true :=
  List.isPrefixOf_iff_prefix.mpr
    (( List.isPrefixOf_iff_prefix.mp h).trans ( List.prefix_append b t))

theorem releaseLine_data (n : String) :
    (releaseLine n).data = "PRIVMSG NickServ :RELEASE ".data ++ (n.data ++ "\r\n".data) := by
  simp [releaseLine, List.append_assoc]

theorem regainLine_data (n : String) :
    (regainLine n).data = "PRIVMSG NickServ :REGAIN ".data ++ (n.data ++ "\r\n".data) := by
  simp [regainLine, List.append_assoc]

theorem operLine_data (u p : String) :
    (operLine u p).data = "OPER ".data ++ (u.data ++ (" ".data ++ (p.data ++ "\r\n".data))) := by
  simp [operLine, List.append_assoc]

theorem modeLine_data (nk m : String) :
    (modeLine nk m).data = "MODE ".data ++ (nk.data ++ (" ".data ++ (m.data ++ "\r\n".data))) := by
  simp [modeLine, List.append_assoc]

theorem isNSRaw_release (n : String) : isNSRaw (WAction.raw (releaseLine n)) = true := by
  simp only [isNSRaw, startsWithChars, releaseLine_data]
  exact isPrefixOf_append_true _ _ _ (by decide)

theorem isNSRaw_regain (n : String) : isNSRaw (WAction.raw (regainLine n)) = true := by
  simp only [isNSRaw, startsWithChars, regainLine_data]
  exact isPrefixOf_append_true _ _ _ (by decide)

theorem isReleaseRaw_release (n : String) : isReleaseRaw (WAction.raw (releaseLine n)) = true := by
  simp only [isReleaseRaw, startsWithChars, releaseLine_data]
  exact isPrefixOf_append_true _ _ _ (by decide)

theorem isRegainRaw_regain (n : String) : isRegainRaw (WAction.raw (regainLine n)) = true := by
  simp only [isRegainRaw, startsWithChars, regainLine_data]
  exact isPrefixOf_append_true _ _ _ (by decide)

theorem isReleaseRaw_regain (n : String) : isReleaseRaw (WAction.raw (regainLine n)) = false := by
  simp only [isReleaseRaw, startsWithChars, regainLine_data]
  exact isPrefixOf_append_false _ _ _ (by decide) (by decide)

theorem isRegainRaw_release (n : String) : isRegainRaw (WAction.raw (releaseLine n)) = false := by
  simp only [isRegainRaw, startsWithChars, releaseLine_data]
  exact isPrefixOf_append_false _ _ _ (by decide) (by decide)

theorem oper_not_ns (u p : String) :
    isNSRaw (WAction.raw (operLine u p)) = false ∧
    isReleaseRaw (WAction.raw (operLine u p)) = false ∧
    isRegainRaw (WAction.raw (operLine u p)) = false := by
  refine ⟨?_, ?_, ?_⟩ <;>
    simp only [isNSRaw, isReleaseRaw, isRegainRaw, startsWithChars, operLine_data] <;>
    exact isPrefixOf_append_false _ _ _ (by decide) (by decide)

theorem mode_not_ns (nk m : String) :
    isNSRaw (WAction.raw (modeLine nk m)) = false ∧
    isReleaseRaw (WAction.raw (modeLine nk m)) = false ∧
    isRegainRaw (WAction.raw (modeLine nk m)) = false := by
  refine ⟨?_, ?_, ?_⟩ <;>
    simp only [isNSRaw, isReleaseRaw, isRegainRaw, startsWithChars, modeLine_data] <;>
    exact isPrefixOf_append_false _ _ _ (by decide) (by decide)

theorem mem_operPart (ou op : Option String) (x : WAction)
    (h : x ∈ (match ou, op with
               | some u, some p => [WAction.raw (operLine u p)]
               | _, _ => ([] : List WAction))) :
    ∃ u p, ou = some u ∧ op = some p ∧ x = WAction.raw (operLine u p) := by
  cases ou with
  | none => cases op <;> simp at h
  | some u =>
    cases op with
    | none => simp at h
    | some p =>
      simp only [List.mem_singleton] at h
      exact ⟨u, p, rfl, rfl, h⟩

theorem mem_modePart (cm : Option String) (nick : String) (x : WAction)
    (h : x ∈ (match cm with
               | some m => [WAction.raw (modeLine nick m)]
               | Option.none => ([] : List WAction))) :
    ∃ m, cm = some m ∧ x = WAction.raw (modeLine nick m) := by
  cases cm with
  | none => simp at h
  | some m =>
    simp only [List.mem_singleton] at h
    exact ⟨m, rfl, h⟩

theorem mem_awayPart (am : Option String) (x : WAction)
    (h : x ∈ (match am with
               | some a => [WAction.away a]
               | Option.none => ([] : List WAction))) :
    ∃ a, am = some a ∧ x = WAction.away a := by
  cases am with
  | none => simp at h
  | some a =>
    simp only [List.mem_singleton] at h
    exact ⟨a, rfl, h⟩

theorem autoperform_not_ns (cfg : ACConfig) (nick : String) :
    ∀ a ∈ autoperformActs cfg nick,
      isNSRaw a = false ∧ isReleaseRaw a = false ∧ isRegainRaw a = false := by
  intro a ha
  unfold autoperformActs at ha
  rcases List.mem_append.mp ha with h1 | h2
  · rcases List.mem_append.mp h1 with h3 | h4
    · rcases List.mem_append.mp h3 with h5 | h6
      · rcases mem_operPart _ _ a h5 with ⟨u, p, _, _, rfl⟩
        exact oper_not_ns u p
      · rcases mem_modePart _ _ a h6 with ⟨m, _, rfl⟩
        exact mode_not_ns nick m
    · rcases mem_awayPart _ a h4 with ⟨w, _, rfl⟩
      exact ⟨rfl, rfl, rfl⟩
  · rcases List.mem_cons.mp h2 with rfl | h5
    · exact ⟨rfl, rfl, rfl⟩
    · rcases List.mem_singleton.mp h5 with rfl
      exact ⟨rfl, rfl, rfl⟩

theorem nickWait_all_sleep (target : String) (nickAt : Nat → String) :
    ∀ rem t0 a, a ∈ nickWait target nickAt rem t0 → a = WAction.sleep := by
  intro rem
  induction rem with
  | zero => intro t0 a h; exact absurd h (List.not_mem_nil a)
  | succ r ih =>
    intro t0 a h
    simp only [nickWait] at h
    by_cases hc : nickAt t0 = target
    · rw [if_pos hc] at h
      exact absurd h (List.not_mem_nil a)
    · rw [if_neg hc] at h
      rcases List.mem_cons.mp h with rfl | h2
      · rfl
      · exact ih (t0 + 1) a h2

theorem nickWait_length_le (target : String) (nickAt : Nat → String) :
    ∀ rem t0, (nickWait target nickAt rem t0).length ≤ rem := by
  intro rem
  induction rem with
  | zero => intro t0; simp [nickWait]
  | succ r ih =>
    intro t0
    simp only [nickWait]
    by_cases hc : nickAt t0 = target
    · simp [hc]
    · rw [if_neg hc]
      simpa using ih (t0 + 1)

theorem nickWait_early (target : String) (nickAt : Nat → String) :
    ∀ rem t0 j, t0 ≤ j → nickAt j = target →
      (nickWait target nickAt rem t0).length ≤ j - t0 := by
  intro rem
  induction rem with
  | zero => intro t0 j _ _; simp [nickWait]
  | succ r ih =>
    intro t0 j hle hj
    simp only [nickWait]
    by_cases hc : nickAt t0 = target
    · simp [hc]
    · rw [if_neg hc]
      have hne : t0 ≠ j := fun he => hc (he ▸ hj)
      have := ih (t0 + 1) j (Nat.lt_of_le_of_ne hle hne) hj
      simp only [List.length_cons]
      omega

/-- C4: on a welcome event with a nickname mismatch the handler sends
exactly one RELEASE and one REGAIN raw line (in that order, each
spelling out the configured nickname) before any autoperform action,
then sleeps at most 10 one-second ticks, stopping as soon as the
nickname matches, and raises nothing if it never does (the handler is a
total function of the observations); with no mismatch it sends no
NickServ request at all. -/
theorem claimC4_identity_recovery (cfg : ACConfig) (nickAt : Nat → String) :
    (nickAt 0 = cfg.nickname → (on_raw_001 cfg nickAt).countP isNSRaw = 0) ∧
    (nickAt 0 ≠ cfg.nickname →
      ∃ w, on_raw_001 cfg nickAt =
          WAction.raw (releaseLine cfg.nickname) :: WAction.raw (regainLine cfg.nickname) ::
            (w ++ autoperformActs cfg (nickAt w.length)) ∧
        (∀ a ∈ w, a = WAction.sleep) ∧ w.length ≤ 10 ∧
        (∀ j, nickAt j = cfg.nickname → w.length ≤ j) ∧
        (on_raw_001 cfg nickAt).countP isReleaseRaw = 1 ∧
        (on_raw_001 cfg nickAt).countP isRegainRaw = 1) := by
  constructor
  · intro h0
    rw [on_raw_001, if_pos h0]
    rw [List.countP_eq_zero]
    intro a ha
    rw [(autoperform_not_ns cfg (nickAt 0) a ha).1]
    simp
  · intro h0
    have heq : on_raw_001 cfg nickAt =
        WAction.raw (releaseLine cfg.nickname) :: WAction.raw (regainLine cfg.nickname) ::
          (nickWait cfg.nickname nickAt 10 0 ++
            autoperformActs cfg (nickAt (nickWait cfg.nickname nickAt 10 0).length)) := by
      rw [on_raw_001, if_neg h0]
    have hws : ∀ a ∈ nickWait cfg.nickname nickAt 10 0, a = WAction.sleep :=
      fun a ha => nickWait_all_sleep cfg.nickname nickAt 10 0 a ha
    have hw0 : (nickWait cfg.nickname nickAt 10 0).countP isReleaseRaw = 0 := by
      rw [List.countP_eq_zero]
      intro a ha
      rw [hws a ha]
      simp [isReleaseRaw]
    have hw0r : (nickWait cfg.nickname nickAt 10 0).countP isRegainRaw = 0 := by
      rw [List.countP_eq_zero]
      intro a ha
      rw [hws a ha]
      simp [isRegainRaw]
    have hap0 : ∀ p2 : WAction → Bool,
        (∀ a ∈ autoperformActs cfg (nickAt (nickWait cfg.nickname nickAt 10 0).length),
          p2 a = false) →
        (autoperformActs cfg (nickAt (nickWait cfg.nickname nickAt 10 0).length)).countP p2 = 0 := by
      intro p2 hall
      rw [List.countP_eq_zero]
      intro a ha
      rw [hall a ha]
      simp
    refine ⟨nickWait cfg.nickname nickAt 10 0, heq, hws,
      nickWait_length_le cfg.nickname nickAt 10 0, ?_, ?_, ?_⟩
    · intro j hj
      have := nickWait_early cfg.nickname nickAt 10 0 j (Nat.zero_le j) hj
      omega
    · rw [heq]
      rw [List.countP_cons_of_pos _ _ (by rw [isReleaseRaw_release])]
      rw [List.countP_cons_of_neg _ _ (by rw [isReleaseRaw_regain]; exact Bool.false_ne_true)]
      rw [List.countP_append, hw0,
        hap0 isReleaseRaw (fun a ha => (autoperform_not_ns cfg _ a ha).2.1)]
    · rw [heq]
      rw [List.countP_cons_of_neg _ _ (by rw [isRegainRaw_release]; exact Bool.false_ne_true)]
      rw [List.countP_cons_of_pos _ _ (by rw [isRegainRaw_regain])]
      rw [List.countP_append, hw0r,
        hap0 isRegainRaw (fun a ha => (autoperform_not_ns cfg _ a ha).2.2)]

theorem claimC4_witness :
    (on_raw_001 sampleCfg okNickAt).countP isNSRaw = 0 ∧
    (on_raw_001 sampleCfg stuckNickAt).countP isReleaseRaw = 1 ∧
    (on_raw_001 sampleCfg stuckNickAt).countP isRegainRaw = 1 := by
  have h1 := (claimC4_identity_recovery sampleCfg okNickAt).1 rfl
  obtain ⟨w, _, _, _, _, hc1, hc2⟩ :=
    (claimC4_identity_recovery sampleCfg stuckNickAt).2 (by decide)
  exact ⟨h1, hc1, hc2⟩

theorem setDone_not_mem_parts (cfg : ACConfig) (nick : String) :
    WAction.setDone ∉ (match cfg.oper_username, cfg.oper_password with
      | some u, some p => [WAction.raw (operLine u p)]
      | _, _ => ([] : List WAction)) ∧
    WAction.setDone ∉ (match cfg.connect_modes with
      | some m => [WAction.raw (modeLine nick m)]
      | Option.none => ([] : List WAction)) ∧
    WAction.setDone ∉ (match cfg.away_message with
      | some a => [WAction.away a]
      | Option.none => ([] : List WAction)) := by
  refine ⟨?_, ?_, ?_⟩
  · intro h
    rcases mem_operPart _ _ _ h with ⟨u, p, _, _, he⟩
    simp at he
  · intro h
    rcases mem_modePart _ _ _ h with ⟨m, _, he⟩
    simp at he
  · intro h
    rcases mem_awayPart _ _ h with ⟨a, _, he⟩
    simp at he

theorem spawn_not_mem_parts (cfg : ACConfig) (nick : String) :
    WAction.spawnTask ∉ (match cfg.oper_username, cfg.oper_password with
      | some u, some p => [WAction.raw (operLine u p)]
      | _, _ => ([] : List WAction)) ∧
    WAction.spawnTask ∉ (match cfg.connect_modes with
      | some m => [WAction.raw (modeLine nick m)]
      | Option.none => ([] : List WAction)) ∧
    WAction.spawnTask ∉ (match cfg.away_message with
      | some a => [WAction.away a]
      | Option.none => ([] : List WAction)) := by
  refine ⟨?_, ?_, ?_⟩
  · intro h
    rcases mem_operPart _ _ _ h with ⟨u, p, _, _, he⟩
    simp at he
  · intro h
    rcases mem_modePart _ _ _ h with ⟨m, _, he⟩
    simp at he
  · intro h
    rcases mem_awayPart _ _ h with ⟨a, _, he⟩
    simp at he

theorem autoperform_count_setDone (cfg : ACConfig) (nick : String) :
    (autoperformActs cfg nick).count WAction.setDone = 1 := by
  unfold autoperformActs
  rw [List.count_append, List.count_append, List.count_append]
  rcases setDone_not_mem_parts cfg nick with ⟨h1, h2, h3⟩
  rw [List.count_eq_zero.mpr h1, List.count_eq_zero.mpr h2, List.count_eq_zero.mpr h3]
  decide

theorem autoperform_count_spawn (cfg : ACConfig) (nick : String) :
    (autoperformActs cfg nick).count WAction.spawnTask = 1 := by
  unfold autoperformActs
  rw [List.count_append, List.count_append, List.count_append]
  rcases spawn_not_mem_parts cfg nick with ⟨h1, h2, h3⟩
  rw [List.count_eq_zero.mpr h1, List.count_eq_zero.mpr h2, List.count_eq_zero.mpr h3]
  decide

theorem autoperform_decomp (cfg : ACConfig) (nick : String) :
    ∃ op md aw,
      autoperformActs cfg nick = op ++ md ++ aw ++ [WAction.spawnTask, WAction.setDone] ∧
      (match cfg.oper_username, cfg.oper_password with
       | some u, some p => op = [WAction.raw (operLine u p)]
       | _, _ => op = []) ∧
      (match cfg.connect_modes with
       | some m => md = [WAction.raw (modeLine nick m)]
       | Option.none => md = []) ∧
      (match cfg.away_message with
       | some a2 => aw = [WAction.away a2]
       | Option.none => aw = []) := by
  refine ⟨_, _, _, rfl, ?_, ?_, ?_⟩
  · cases hu : cfg.oper_username <;> cases hp : cfg.oper_password <;> simp
  · cases hm : cfg.connect_modes <;> simp
  · cases ha : cfg.away_message <;> simp

/-- C8: on every welcome event the handler's trace is the identity
recovery (NickServ raws and sleeps only) followed — in this fixed
order — by the optional OPER command (present exactly when both
credentials are configured), the optional MODE command, the optional
away marking, the registration of the membership-maintainer background
task, and, as the very last action, setting `autoperform_done`; the
spawn and the flag-set each happen exactly once. -/
theorem claimC8_autoperform_sequence (cfg : ACConfig) (nickAt : Nat → String) :
    ∃ rec nick op md aw,
      on_raw_001 cfg nickAt =
        rec ++ op ++ md ++ aw ++ [WAction.spawnTask, WAction.setDone] ∧
      (∀ a ∈ rec, a = WAction.sleep ∨ isNSRaw a = true) ∧
      (match cfg.oper_username, cfg.oper_password with
       | some u, some p => op = [WAction.raw (operLine u p)]
       | _, _ => op = []) ∧
      (match cfg.connect_modes with
       | some m => md = [WAction.raw (modeLine nick m)]
       | Option.none => md = []) ∧
      (match cfg.away_message with
       | some a2 => aw = [WAction.away a2]
       | Option.none => aw = []) ∧
      (on_raw_001 cfg nickAt).count WAction.setDone = 1 ∧
      (on_raw_001 cfg nickAt).count WAction.spawnTask = 1 := by
  by_cases h0 : nickAt 0 = cfg.nickname
  · rcases autoperform_decomp cfg (nickAt 0) with ⟨op, md, aw, heq, hop, hmd, haw⟩
    refine ⟨[], nickAt 0, op, md, aw, ?_, ?_, hop, hmd, haw, ?_, ?_⟩
    · rw [on_raw_001, if_pos h0, heq]
      simp
    · intro a ha
      exact absurd ha (List.not_mem_nil a)
    · rw [on_raw_001, if_pos h0]
      exact autoperform_count_setDone cfg (nickAt 0)
    · rw [on_raw_001, if_pos h0]
      exact autoperform_count_spawn cfg (nickAt 0)
  · rcases autoperform_decomp cfg
      (nickAt (nickWait cfg.nickname nickAt 10 0).length) with ⟨op, md, aw, heq, hop, hmd, haw⟩
    have hmain : on_raw_001 cfg nickAt =
        WAction.raw (releaseLine cfg.nickname) :: WAction.raw (regainLine cfg.nickname) ::
          (nickWait cfg.nickname nickAt 10 0 ++
            autoperformActs cfg (nickAt (nickWait cfg.nickname nickAt 10 0).length)) := by
      rw [on_raw_001, if_neg h0]
    refine ⟨WAction.raw (releaseLine cfg.nickname) :: WAction.raw (regainLine cfg.nickname) ::
      nickWait cfg.nickname nickAt 10 0,
      nickAt (nickWait cfg.nickname nickAt 10 0).length, op, md, aw, ?_, ?_, hop, hmd, haw, ?_, ?_⟩
    · rw [hmain, heq]
      simp [List.append_assoc]
    · intro a ha
      rcases List.mem_cons.mp ha with rfl | ha2
      · exact Or.inr (isNSRaw_release cfg.nickname)
      · rcases List.mem_cons.mp ha2 with rfl | ha3
        · exact Or.inr (isNSRaw_regain cfg.nickname)
        · exact Or.inl (nickWait_all_sleep cfg.nickname nickAt 10 0 a ha3)
    · rw [hmain]
      rw [List.count_cons_of_ne (by simp), List.count_cons_of_ne (by simp)]
      rw [List.count_append]
      have hw : WAction.setDone ∉ nickWait cfg.nickname nickAt 10 0 := by
        intro hmem
        have := nickWait_all_sleep cfg.nickname nickAt 10 0 _ hmem
        simp at this
      rw [List.count_eq_zero.mpr hw, autoperform_count_setDone]
    · rw [hmain]
      rw [List.count_cons_of_ne (by simp), List.count_cons_of_ne (by simp)]
      rw [List.count_append]
      have hw : WAction.spawnTask ∉ nickWait cfg.nickname nickAt 10 0 := by
        intro hmem
        have := nickWait_all_sleep cfg.nickname nickAt 10 0 _ hmem
        simp at this
      rw [List.count_eq_zero.mpr hw, autoperform_count_spawn]

theorem claimC8_witness :
    (on_raw_001 sampleCfg okNickAt).count WAction.setDone = 1 ∧
    (on_raw_001 plainCfg stuckNickAt).count WAction.spawnTask = 1 := by
  obtain ⟨_, _, _, _, _, _, _, _, _, _, hc1, _⟩ :=
    claimC8_autoperform_sequence sampleCfg okNickAt
  obtain ⟨_, _, _, _, _, _, _, _, _, _, _, hc2⟩ :=
    claimC8_autoperform_sequence plainCfg stuckNickAt
  exact ⟨hc1, hc2⟩

theorem pollUntil_first (cond : Nat → Bool) :
    ∀ fuel t0 j, t0 ≤ j → j ≤ t0 + fuel → cond j = true →
      ∃ t, pollUntil cond fuel t0 = some t ∧ t0 ≤ t ∧ t ≤ j := by
  intro fuel
  induction fuel with
  | zero =>
    intro t0 j h1 h2 hj
    have : j = t0 := by omega
    subst this
    exact ⟨j, by simp [pollUntil, hj], Nat.le_refl j, Nat.le_refl j⟩
  | succ f ih =>
    intro t0 j h1 h2 hj
    by_cases hc : cond t0 = true
    · exact ⟨t0, by simp [pollUntil, hc], Nat.le_refl t0, h1⟩
    · have hne : t0 ≠ j := fun he => hc (he ▸ hj)
      rcases ih (t0 + 1) j (by omega) (by omega) hj with ⟨t, ht, ht1, ht2⟩
      refine ⟨t, ?_, by omega, ht2⟩
      simp only [pollUntil]
      rw [if_neg (by simp [Bool.not_eq_true] at hc ⊢; exact hc)]
      exact ht

theorem pollUntil_none_of_never (cond : Nat → Bool) :
    ∀ fuel t0, (∀ t, t0 ≤ t → t ≤ t0 + fuel → cond t = false) →
      pollUntil cond fuel t0 = Option.none := by
  intro fuel
  induction fuel with
  | zero =>
    intro t0 h
    simp [pollUntil, h t0 (Nat.le_refl t0) (by omega)]
  | succ f ih =>
    intro t0 h
    simp only [pollUntil]
    rw [if_neg (by simp [h t0 (Nat.le_refl t0) (by omega)])]
    exact ih (t0 + 1) (fun t ht1 ht2 => h t (by omega) (by omega))

theorem emitted_ne_nil (text : String) (wrap : Bool) : emitted text wrap ≠ [] := by
  unfold emitted
  by_cases h1 : text ≠ "" ∧ wrap = true
  · rw [if_pos h1]
    simp
  · rw [if_neg h1]
    by_cases h2 : text ≠ ""
    · rw [if_pos h2]
      simp
    · rw [if_neg h2]
      simp

/-- C2 (amended): the canonical gate `message_or_notice` never returns
without delivering — while `connected and autoperform_done` is false it
keeps polling in 1-second ticks (the model reports `Option.none` at any
finite horizon when readiness never arrives), and once readiness (and,
for a channel target, membership) holds it returns having handed the
text to the underlying engine exactly once (as the single message for
`wrap=false`, as the wrapped lines plus the trailing space otherwise).
The legacy `Client.message`, by contrast, returns immediately with no
join and no send whenever `connected` is false: there the message is
silently dropped. -/
theorem claimC2_gate_never_drops (env : GateEnv) (fuel : Nat) (target text : String)
    (wrap is_notice : Bool) :
    ((∃ j, j ≤ fuel ∧ env.ready j = true) →
      (env.is_channel target = true →
        ∃ j, j ≤ fuel ∧ ∀ k, j ≤ k → env.in_channel k target = true) →
      ∃ sends, message_or_notice env fuel target text wrap is_notice = some sends ∧
        sends = (emitted text wrap).map (fun line => ⟨is_notice, target, line⟩) ∧
        (text ≠ "" → wrap = false → sends = [⟨is_notice, target, text⟩]) ∧
        sends ≠ []) ∧
    ((∀ t, t ≤ fuel → env.ready t = false) →
      message_or_notice env fuel target text wrap is_notice = Option.none) ∧
    (∀ (is_channel in_channel : String → Bool) (tgt txt : String),
      Client_message false is_channel in_channel tgt txt = ([], [])) := by
  refine ⟨?_, ?_, ?_⟩
  · intro hready hjoin
    rcases hready with ⟨j, hj, hrj⟩
    rcases pollUntil_first env.ready fuel 0 j (Nat.zero_le j) (by omega) hrj with ⟨t1, ht1, _, ht1j⟩
    simp only [message_or_notice, ht1]
    by_cases hch : env.is_channel target = true
    · rcases hjoin hch with ⟨j2, hj2, hstable⟩
      have hcond : (fun t => env.in_channel t target) (max j2 t1) = true :=
        hstable (max j2 t1) (Nat.le_max_left j2 t1)
      rcases pollUntil_first (fun t => env.in_channel t target) fuel t1 (max j2 t1)
        (Nat.le_max_right j2 t1) (by omega) hcond with ⟨t2, ht2, _, _⟩
      rw [if_pos hch, ht2]
      refine ⟨(emitted text wrap).map (fun line => ⟨is_notice, target, line⟩), rfl, rfl, ?_, ?_⟩
      · intro hne hw
        unfold emitted
        rw [if_neg (by simp [hw]), if_pos hne]
        rfl
      · simp only [ne_eq, List.map_eq_nil_iff]
        exact emitted_ne_nil text wrap
    · rw [if_neg hch]
      refine ⟨(emitted text wrap).map (fun line => ⟨is_notice, target, line⟩), rfl, rfl, ?_, ?_⟩
      · intro hne hw
        unfold emitted
        rw [if_neg (by simp [hw]), if_pos hne]
        rfl
      · simp only [ne_eq, List.map_eq_nil_iff]
        exact emitted_ne_nil text wrap
  · intro hnever
    unfold message_or_notice
    rw [pollUntil_none_of_never env.ready fuel 0 (fun t ht1 ht2 => hnever t (by omega))]
  · intro is_channel in_channel tgt txt
    rfl

/-- C2 counterexample: a legacy-variant send call with `connected`
false returns at once with no join attempt and no delivery — the
message to the un-joined channel is dropped, not deferred. -/
theorem claimC2_counterexample :
    Client_message false (fun _ => true) (fun _ => false) "#chan" "hello" = ([], []) := rfl

theorem claimC2_witness :
    (∃ sends, message_or_notice sampleGateEnv 8 "#chan" "hello" false false = some sends ∧
      sends = [⟨false, "#chan", "hello"⟩]) ∧
    message_or_notice sampleGateEnv 1 "#chan" "hello" false false = Option.none := by
  have h := claimC2_gate_never_drops sampleGateEnv 8 "#chan" "hello" false false
  have h2 := claimC2_gate_never_drops sampleGateEnv 1 "#chan" "hello" false false
  constructor
  · rcases h.1 ⟨2, by decide, by decide⟩
      (fun _ => ⟨3, by decide, fun k hk => by
        simp only [sampleGateEnv]
        exact decide_eq_true hk⟩) with ⟨sends, hs, _, hone, _⟩
    exact ⟨sends, hs, hone (by decide) rfl⟩
  · exact h2.2.1 (fun t ht => by
      simp only [sampleGateEnv]
      simp only [decide_eq_false_iff_not]
      omega)

theorem sumLens_append (a b : List (List Char)) :
    sumLens (a ++ b) = sumLens a + sumLens b := by
  simp [sumLens]

theorem chunksMeasure_append (a b : List (List Char)) :
    chunksMeasure (a ++ b) = chunksMeasure a + chunksMeasure b := by
  simp only [chunksMeasure, sumLens_append, List.length_append]
  omega

theorem fillLine_append : ∀ (cs : List (List Char)) (k : Nat),
    (fillLine cs k).1 ++ (fillLine cs k).2 = cs := by
  intro cs
  induction cs with
  | nil => intro k; simp [fillLine]
  | cons c cs ih =>
    intro k
    simp only [fillLine]
    by_cases h : k + c.length ≤ 64
    · rw [if_pos h]
      simp only [List.cons_append, List.cons.injEq, true_and]
      exact ih (k + c.length)
    · rw [if_neg h]
      rfl

theorem fillLine_sum : ∀ (cs : List (List Char)) (k : Nat), k ≤ 64 →
    k + sumLens (fillLine cs k).1 ≤ 64 := by
  intro cs
  induction cs with
  | nil => intro k hk; simpa [fillLine, sumLens] using hk
  | cons c cs ih =>
    intro k hk
    simp only [fillLine]
    by_cases h : k + c.length ≤ 64
    · rw [if_pos h]
      have := ih (k + c.length) h
      simp only [sumLens, List.map_cons, List.sum_cons]
      simp only [sumLens] at this
      omega
    · rw [if_neg h]
      simpa [sumLens] using hk

theorem fillLine_nil_head (c : List Char) (cs : List (List Char)) (k : Nat)
    (h : (fillLine (c :: cs) k).1 = []) : ¬(k + c.length ≤ 64) := by
  intro hfit
  simp only [fillLine, if_pos hfit] at h
  exact List.cons_ne_nil _ _ h

theorem dropLastWS_mem : ∀ (l : List (List Char)) (c : List Char),
    c ∈ l → isWSChunk c = false → c ∈ dropLastWS l := by
  intro l
  induction l with
  | nil => intro c hc _; exact absurd hc (List.not_mem_nil c)
  | cons a rest ih =>
    intro c hc hw
    rcases rest with _ | ⟨b, rest2⟩
    · rcases List.mem_singleton.mp hc with rfl
      simp only [dropLastWS]
      rw [if_neg (by rw [hw]; exact Bool.false_ne_true)]
      exact List.mem_singleton.mpr rfl
    · simp only [dropLastWS]
      rcases List.mem_cons.mp hc with rfl | hc2
      · exact List.mem_cons_self _ _
      · exact List.mem_cons_of_mem a (ih c hc2 hw)

theorem dropLastWS_sum_le : ∀ l : List (List Char),
    sumLens (dropLastWS l) ≤ sumLens l := by
  intro l
  induction l with
  | nil => simp [dropLastWS]
  | cons a rest ih =>
    rcases rest with _ | ⟨b, rest2⟩
    · simp only [dropLastWS]
      by_cases h : isWSChunk a = true
      · rw [if_pos h]
        simp [sumLens]
      · rw [if_neg h]
    · simp only [dropLastWS, sumLens, List.map_cons, List.sum_cons] at ih ⊢
      omega

theorem buildLine_eq (chunks : List (List Char)) :
    ((fillLine chunks 0).2 = [] ∧ buildLine chunks = ((fillLine chunks 0).1, [])) ∨
    (∃ r rs, (fillLine chunks 0).2 = r :: rs ∧ 64 < r.length ∧
      buildLine chunks =
        ((fillLine chunks 0).1 ++ [r.take (64 - sumLens (fillLine chunks 0).1)],
         r.drop (64 - sumLens (fillLine chunks 0).1) :: rs)) ∨
    (∃ r rs, (fillLine chunks 0).2 = r :: rs ∧ ¬(64 < r.length) ∧
      buildLine chunks = ((fillLine chunks 0).1, r :: rs)) := by
  rcases h : (fillLine chunks 0).2 with _ | ⟨r, rs⟩
  · left
    refine ⟨rfl, ?_⟩
    simp only [buildLine]
    rw [h]
  · by_cases hl : 64 < r.length
    · right; left
      refine ⟨r, rs, rfl, hl, ?_⟩
      simp only [buildLine]
      rw [h]
      exact if_pos hl
    · right; right
      refine ⟨r, rs, rfl, hl, ?_⟩
      simp only [buildLine]
      rw [h]
      exact if_neg hl

theorem buildLine_fst_sum (chunks : List (List Char)) :
    sumLens (buildLine chunks).1 ≤ 64 := by
  have hfs := fillLine_sum chunks 0 (by omega)
  rcases buildLine_eq chunks with ⟨h2, he⟩ | ⟨r, rs, h2, hl, he⟩ | ⟨r, rs, h2, hl, he⟩
  · have hfst : (buildLine chunks).1 = (fillLine chunks 0).1 := by rw [he]
    rw [hfst]
    omega
  · have hfst : (buildLine chunks).1 =
        (fillLine chunks 0).1 ++ [r.take (64 - sumLens (fillLine chunks 0).1)] := by rw [he]
    rw [hfst, sumLens_append]
    have htk : sumLens [r.take (64 - sumLens (fillLine chunks 0).1)] =
        min (64 - sumLens (fillLine chunks 0).1) r.length := by
      simp [sumLens]
    rw [htk]
    omega
  · have hfst : (buildLine chunks).1 = (fillLine chunks 0).1 := by rw [he]
    rw [hfst]
    omega

theorem buildLine_mem (chunks : List (List Char)) (c : List Char)
    (hc : c ∈ chunks) (hlen : c.length ≤ 64) :
    c ∈ (buildLine chunks).1 ∨ c ∈ (buildLine chunks).2 := by
  have hsplit : c ∈ (fillLine chunks 0).1 ∨ c ∈ (fillLine chunks 0).2 := by
    rw [← fillLine_append chunks 0] at hc
    exact List.mem_append.mp hc
  rcases buildLine_eq chunks with ⟨h2, he⟩ | ⟨r, rs, h2, hl, he⟩ | ⟨r, rs, h2, hl, he⟩
  · have hfst : (buildLine chunks).1 = (fillLine chunks 0).1 := by rw [he]
    rw [hfst]
    rcases hsplit with h | h
    · exact Or.inl h
    · rw [h2] at h
      exact absurd h (List.not_mem_nil c)
  · have hfst : (buildLine chunks).1 =
        (fillLine chunks 0).1 ++ [r.take (64 - sumLens (fillLine chunks 0).1)] := by rw [he]
    have hsnd : (buildLine chunks).2 =
        r.drop (64 - sumLens (fillLine chunks 0).1) :: rs := by rw [he]
    rw [hfst, hsnd]
    rcases hsplit with h | h
    · exact Or.inl (List.mem_append_left _ h)
    · rw [h2] at h
      rcases List.mem_cons.mp h with rfl | h3
      · omega
      · exact Or.inr (List.mem_cons_of_mem _ h3)
  · have hfst : (buildLine chunks).1 = (fillLine chunks 0).1 := by rw [he]
    have hsnd : (buildLine chunks).2 = r :: rs := by rw [he]
    rw [hfst, hsnd, ← h2]
    exact hsplit

theorem chunksMeasure_cons (c : List Char) (cs : List (List Char)) :
    chunksMeasure (c :: cs) = c.length + 1 + chunksMeasure cs := by
  simp only [chunksMeasure, sumLens, List.map_cons, List.sum_cons, List.length_cons]
  omega

theorem chunksMeasure_nil : chunksMeasure ([] : List (List Char)) = 0 := by
  simp [chunksMeasure, sumLens]

theorem buildLine_measure (c1 : List Char) (cs1 : List (List Char)) :
    chunksMeasure (buildLine (c1 :: cs1)).2 < chunksMeasure (c1 :: cs1) := by
  have happ := fillLine_append (c1 :: cs1) 0
  have hfs := fillLine_sum (c1 :: cs1) 0 (by omega)
  have hμ : chunksMeasure (c1 :: cs1) =
      chunksMeasure (fillLine (c1 :: cs1) 0).1 + chunksMeasure (fillLine (c1 :: cs1) 0).2 := by
    conv_lhs => rw [← happ]
    rw [chunksMeasure_append]
  have hpos : 1 ≤ chunksMeasure (c1 :: cs1) := by
    rw [chunksMeasure_cons]
    omega
  rcases buildLine_eq (c1 :: cs1) with ⟨h2, he⟩ | ⟨r, rs, h2, hl, he⟩ | ⟨r, rs, h2, hl, he⟩
  · have hsnd : (buildLine (c1 :: cs1)).2 = [] := by rw [he]
    rw [hsnd, chunksMeasure_nil]
    omega
  · have hsnd : (buildLine (c1 :: cs1)).2 =
        r.drop (64 - sumLens (fillLine (c1 :: cs1) 0).1) :: rs := by rw [he]
    rw [hsnd]
    rw [hμ, h2]
    rw [chunksMeasure_cons, chunksMeasure_cons]
    rw [List.length_drop]
    have hdisj : 0 < 64 - sumLens (fillLine (c1 :: cs1) 0).1 ∨
        1 ≤ chunksMeasure (fillLine (c1 :: cs1) 0).1 := by
      rcases hfl : (fillLine (c1 :: cs1) 0).1 with _ | ⟨x, xs⟩
      · left
        simp [sumLens]
      · right
        rw [chunksMeasure_cons]
        omega
    omega
  · have hsnd : (buildLine (c1 :: cs1)).2 = r :: rs := by rw [he]
    have hne : (fillLine (c1 :: cs1) 0).1 ≠ [] := by
      intro hfl
      have hr : r = c1 := by
        rw [hfl, h2] at happ
        simp only [List.nil_append, List.cons.injEq] at happ
        exact happ.1
      have hbig : ¬(0 + c1.length ≤ 64) := fillLine_nil_head c1 cs1 0 hfl
      rw [hr] at hl
      omega
    have hμ1 : 1 ≤ chunksMeasure (fillLine (c1 :: cs1) 0).1 := by
      rcases hfl : (fillLine (c1 :: cs1) 0).1 with _ | ⟨x, xs⟩
      · exact absurd hfl hne
      · rw [chunksMeasure_cons]
        omega
    rw [hsnd, hμ, h2]
    omega

theorem wrapLoop_unfold (f : Nat) (c0 : List Char) (cs : List (List Char)) (started : Bool) :
    wrapLoop (f + 1) (c0 :: cs) started =
      (if (dropLastWS (buildLine (if started && isWSChunk c0 then cs else c0 :: cs)).1).isEmpty
       then wrapLoop f (buildLine (if started && isWSChunk c0 then cs else c0 :: cs)).2 started
       else (dropLastWS (buildLine (if started && isWSChunk c0 then cs else c0 :: cs)).1).flatten ::
         wrapLoop f (buildLine (if started && isWSChunk c0 then cs else c0 :: cs)).2 true) := rfl

theorem wrapLoop_lines_le : ∀ (fuel : Nat) (chunks : List (List Char)) (started : Bool)
    (l : List Char), l ∈ wrapLoop fuel chunks started → l.length ≤ 64 := by
  intro fuel
  induction fuel with
  | zero => intro chunks started l h; simp [wrapLoop] at h
  | succ f ih =>
    intro chunks started l h
    rcases chunks with _ | ⟨c0, cs⟩
    · simp [wrapLoop] at h
    · rw [wrapLoop_unfold] at h
      by_cases hemp : (dropLastWS
          (buildLine (if started && isWSChunk c0 then cs else c0 :: cs)).1).isEmpty = true
      · rw [if_pos hemp] at h
        exact ih _ started l h
      · rw [if_neg hemp] at h
        rcases List.mem_cons.mp h with rfl | h2
        · rw [List.length_flatten]
          calc (List.map List.length (dropLastWS
                (buildLine (if started && isWSChunk c0 then cs else c0 :: cs)).1)).sum
              = sumLens (dropLastWS
                (buildLine (if started && isWSChunk c0 then cs else c0 :: cs)).1) := rfl
            _ ≤ sumLens (buildLine (if started && isWSChunk c0 then cs else c0 :: cs)).1 :=
                dropLastWS_sum_le _
            _ ≤ 64 := buildLine_fst_sum _
        · exact ih _ true l h2

theorem wrapLoop_word_kept : ∀ (fuel : Nat) (chunks : List (List Char)) (started : Bool),
    chunksMeasure chunks ≤ fuel →
    ∀ c ∈ chunks, isWSChunk c = false → c.length ≤ 64 →
    ∃ l, l ∈ wrapLoop fuel chunks started ∧ c <:+: l := by
  intro fuel
  induction fuel with
  | zero =>
    intro chunks started hμ c hc _ _
    rcases chunks with _ | ⟨c0, cs⟩
    · exact absurd hc (List.not_mem_nil c)
    · rw [chunksMeasure_cons] at hμ
      omega
  | succ f ih =>
    intro chunks started hμ c hc hw hlen
    rcases chunks with _ | ⟨c0, cs⟩
    · exact absurd hc (List.not_mem_nil c)
    · have hcore : ∀ (X : List (List Char)) (st2 : Bool), c ∈ X →
          chunksMeasure X ≤ f + 1 →
          ∃ l, l ∈ (if (dropLastWS (buildLine X).1).isEmpty
                    then wrapLoop f (buildLine X).2 st2
                    else (dropLastWS (buildLine X).1).flatten ::
                      wrapLoop f (buildLine X).2 true) ∧ c <:+: l := by
        intro X st2 hcX hμX
        rcases X with _ | ⟨c1, cs1⟩
        · exact absurd hcX (List.not_mem_nil c)
        · have hμrec : chunksMeasure (buildLine (c1 :: cs1)).2 ≤ f := by
            have := buildLine_measure c1 cs1
            omega
          rcases buildLine_mem (c1 :: cs1) c hcX hlen with hin1 | hin2
          · have hline : c ∈ dropLastWS (buildLine (c1 :: cs1)).1 :=
              dropLastWS_mem _ c hin1 hw
            have hne : ¬((dropLastWS (buildLine (c1 :: cs1)).1).isEmpty = true) := by
              rw [List.isEmpty_eq_true]
              exact List.ne_nil_of_mem hline
            rw [if_neg hne]
            exact ⟨(dropLastWS (buildLine (c1 :: cs1)).1).flatten,
              List.mem_cons_self _ _, List.infix_of_mem_flatten hline⟩
          · by_cases hemp : (dropLastWS (buildLine (c1 :: cs1)).1).isEmpty = true
            · rw [if_pos hemp]
              exact ih (buildLine (c1 :: cs1)).2 st2 hμrec c hin2 hw hlen
            · rw [if_neg hemp]
              rcases ih (buildLine (c1 :: cs1)).2 true hμrec c hin2 hw hlen with ⟨l, hl, hinf⟩
              exact ⟨l, List.mem_cons_of_mem _ hl, hinf⟩
      rw [wrapLoop_unfold]
      by_cases hd : (started && isWSChunk c0) = true
      · rw [hd]
        simp only [if_true]
        have hccs : c ∈ cs := by
          rcases List.mem_cons.mp hc with rfl | h2
          · rw [Bool.and_eq_true] at hd
            rw [hd.2] at hw
            exact absurd hw (by simp)
          · exact h2
        have hμcs : chunksMeasure cs ≤ f + 1 := by
          rw [chunksMeasure_cons] at hμ
          omega
        exact hcore cs started hccs hμcs
      · simp only [Bool.not_eq_true] at hd
        rw [hd]
        simp only [Bool.false_eq_true, if_false]
        exact hcore (c0 :: cs) started hc hμ

/-- C3 (amended): for non-empty text with `wrap=true` the gate emits
the wrapper's lines followed by exactly one trailing single-space
message, every line is at most 64 characters, and every word (maximal
non-space run of the normalized text) of at most 64 characters appears
intact inside some emitted line — but a word longer than 64 characters
is broken at the width boundary (`break_long_words`), not kept whole;
with `wrap=false` exactly one message is emitted, and for empty text
exactly one single-space message.  Stated for hyphen-free ASCII texts,
the regime in which the model matches CPython's chunking. -/
theorem claimC3_wrap_emission (text : String) (wrap : Bool)
    (hch : ∀ ch ∈ text.data, modelChar ch = true) :
    (text ≠ "" → wrap = true →
      emitted text wrap = pyWrapStr text ++ [" "] ∧
      (∀ l ∈ pyWrapStr text, l.length ≤ 64) ∧
      (∀ w ∈ wordsOf text, w.length ≤ 64 → ∃ l ∈ pyWrapStr text, w <:+: l.data)) ∧
    (text ≠ "" → wrap = false → emitted text wrap = [text]) ∧
    (text = "" → emitted text wrap = [" "]) := by
  refine ⟨?_, ?_, ?_⟩
  · intro hne hwrap
    refine ⟨by unfold emitted; rw [if_pos ⟨hne, hwrap⟩], ?_, ?_⟩
    · intro l hl
      rcases List.mem_map.mp hl with ⟨lc, hlc, rfl⟩
      simp only [pyWrap] at hlc
      have := wrapLoop_lines_le _ _ false lc hlc
      exact this
    · intro w hwmem hwlen
      rcases List.mem_filter.mp hwmem with ⟨hmem, hdec⟩
      have hws : isWSChunk w = false := of_decide_eq_true hdec
      rcases wrapLoop_word_kept (chunksMeasure (splitChunks (munge text.data)) + 1)
        (splitChunks (munge text.data)) false (by omega) w hmem hws hwlen with ⟨lc, hlc, hinf⟩
      refine ⟨⟨lc⟩, ?_, hinf⟩
      simp only [pyWrapStr, pyWrap]
      exact List.mem_map_of_mem (fun l => (⟨l⟩ : String)) hlc
  · intro hne hwrap
    unfold emitted
    rw [if_neg (by rw [hwrap]; simp), if_pos hne]
  · intro hemp
    unfold emitted
    rw [if_neg (by simp [hemp]), if_neg (by simp [hemp])]

/-- C3 counterexample: a 65-character single-word text is split by the
wrapper at the 64-character boundary — the word appears in no single
emitted line, contradicting the claim that no word is split across
two lines. -/
theorem claimC3_counterexample :
    wordsOf text65 = [List.replicate 65 'a'] ∧
    pyWrapStr text65 = [⟨List.replicate 64 'a'⟩, "a"] ∧
    emitted text65 true = [⟨List.replicate 64 'a'⟩, "a", " "] ∧
    ¬(List.replicate 65 'a' <:+: (⟨List.replicate 64 'a'⟩ : String).data) ∧
    ¬(List.replicate 65 'a' <:+: ("a" : String).data) := by
  refine ⟨by decide, by decide, by decide, ?_, ?_⟩
  · intro h
    have hle := h.length_le
    simp at hle
  · intro h
    have hle := h.length_le
    simp at hle

theorem claimC3_witness :
    emitted wmsg true = pyWrapStr wmsg ++ [" "] ∧
    emitted wmsg false = [wmsg] ∧
    emitted "" true = [" "] := by
  have h := claimC3_wrap_emission wmsg true (by decide)
  have h2 := claimC3_wrap_emission wmsg false (by decide)
  have h3 := claimC3_wrap_emission "" true (by decide)
  exact ⟨(h.1 (by decide) rfl).1, h2.2.1 (by decide) rfl, h3.2.2 rfl⟩
